import Mathlib

/-! Verification development for the registry-assets builder
(`src/experimental/python/scripts/build-registry-assets.py`).

The script is shallowly embedded here:

* Python strings are `Str := List Char` (Python compares strings
  lexicographically by code point, which matches `List Char` with `Char`
  order).
* The module directory tree is the mutual inductive `FsNode`/`FsList`;
  the list of children is in `os.scandir` order, which is what `os.walk`
  exposes to the script.
* `os.walk`-based enumeration (`list_files`), the deterministic tarball
  builder (`build_tarball`), the chunked digest (`sha256_file`), the
  YAML-scalar reader (`read_module_yaml_scalars`) and the `main` pipeline
  (`runBuild`) are translated function by function.
* The two genuinely external computations — serializing a tar/gzip
  archive to bytes and the SHA-256 compression function — are abstract
  parameters (`tarBytes`, `hexDigest`); everything the script does around
  them (chunking, formatting, field assembly) is modelled concretely.
-/

/-! Strings as lists of characters -/

abbrev Str := List Char

def str (s : String) : Str := s.data

/-- Python string `<=`: lexicographic comparison by code point. -/
def strLe : Str → Str → Bool
  | [], _ => true
  | _ :: _, [] => false
  | a :: as, b :: bs => if a = b then strLe as bs else decide (a < b)

/-- The relation form of `strLe`, for use with `List.insertionSort`. -/
def StrLeP (a b : Str) : Prop := strLe a b = true

instance : DecidableRel StrLeP := fun a b => Bool.decEq (strLe a b) true

theorem strLe_refl (a : Str) : strLe a a = true := by
  induction a with
  | nil => rfl
  | cons c cs ih => simp [strLe, ih]

theorem strLe_total (a b : Str) : strLe a b = true ∨ strLe b a = true := by
  induction a generalizing b with
  | nil => exact Or.inl rfl
  | cons c cs ih =>
    cases b with
    | nil => exact Or.inr rfl
    | cons d ds =>
      by_cases h : c = d
      · subst h
        rcases ih ds with h1 | h1
        · exact Or.inl (by simp [strLe, h1])
        · exact Or.inr (by simp [strLe, h1])
      · rcases lt_trichotomy c d with hlt | heq | hgt
        · exact Or.inl (by simp [strLe, h, hlt])
        · exact absurd heq h
        · have h2 : ¬ d = c := fun hh => h hh.symm
          have h3 : ¬ c < d := not_lt_of_gt hgt
          exact Or.inr (by simp [strLe, h2, hgt])

theorem strLe_trans (a b c : Str) (h1 : strLe a b = true) (h2 : strLe b c = true) :
    strLe a c = true := by
  induction a generalizing b c with
  | nil => rfl
  | cons x xs ih =>
    cases b with
    | nil => simp [strLe] at h1
    | cons y ys =>
      cases c with
      | nil => simp [strLe] at h2
      | cons z zs =>
        by_cases hxy : x = y
        · subst hxy
          by_cases hyz : x = z
          · subst hyz
            simp [strLe] at h1 h2 ⊢
            exact ih ys zs h1 h2
          · simp [strLe, hyz] at h2 ⊢
            exact h2
        · simp [strLe, hxy] at h1
          by_cases hyz : y = z
          · subst hyz
            simp [strLe, hxy]
            exact h1
          · simp [strLe, hyz] at h2
            have hxz : x < z := lt_trans h1 h2
            have hne : ¬ x = z := ne_of_lt hxz
            simp [strLe, hne, hxz]

theorem strLe_antisymm (a b : Str) (h1 : strLe a b = true) (h2 : strLe b a = true) :
    a = b := by
  induction a generalizing b with
  | nil =>
    cases b with
    | nil => rfl
    | cons y ys => simp [strLe] at h2
  | cons x xs ih =>
    cases b with
    | nil => simp [strLe] at h1
    | cons y ys =>
      by_cases hxy : x = y
      · subst hxy
        simp [strLe] at h1 h2
        exact congrArg (x :: ·) (ih ys h1 h2)
      · simp [strLe, hxy] at h1
        have hyx : ¬ y = x := fun hh => hxy hh.symm
        simp [strLe, hyx] at h2
        exact absurd h2 (not_lt_of_gt h1)

instance : IsTotal Str StrLeP := ⟨strLe_total⟩

instance : IsTrans Str StrLeP := ⟨strLe_trans⟩

instance : IsAntisymm Str StrLeP := ⟨strLe_antisymm⟩

instance : IsRefl Str StrLeP := ⟨strLe_refl⟩

/-- Python `list.sort()` on strings: the sorted permutation under `strLe`. -/
def sortStrings (l : List Str) : List Str := List.insertionSort StrLeP l

/-- POSIX join of relative-path components (`Path.as_posix` output shape). -/
def joinPosix (comps : List Str) : Str := List.intercalate (str ("/")) comps

/-- The path `base / rel` rendered as a string, as in the script's error messages. -/
def pathOf (base : Str) (rel : List Str) : Str := joinPosix (base :: rel)

/-- Python `dict` assignment `d[k] = v`: overwrite in place, keeping the
original insertion position of an existing key. -/
def dictInsert {α : Type} (k : Str) (v : α) : List (Str × α) → List (Str × α)
  | [] => [(k, v)]
  | (k2, v2) :: rest => if k2 = k then (k, v) :: rest else (k2, v2) :: dictInsert k v rest

/-- Python `dict` lookup on an association list. -/
def lookupA {α : Type} (k : Str) : List (Str × α) → Option α
  | [] => none
  | (k2, v2) :: rest => if k2 = k then some v2 else lookupA k rest

instance {ε α : Type} [DecidableEq ε] [DecidableEq α] : DecidableEq (Except ε α)
  | .error a, .error b =>
    match decEq a b with
    | isTrue h => isTrue (h ▸ rfl)
    | isFalse h => isFalse (fun hc => h (Except.noConfusion hc id))
  | .error _, .ok _ => isFalse (fun hc => Except.noConfusion hc)
  | .ok _, .error _ => isFalse (fun hc => Except.noConfusion hc)
  | .ok a, .ok b =>
    match decEq a b with
    | isTrue h => isTrue (h ▸ rfl)
    | isFalse h => isFalse (fun hc => h (Except.noConfusion hc id))

/-! The restricted YAML scalar reader (`read_module_yaml_scalars`) -/

/-- Characters treated as whitespace by Python's `str.strip()` and by the
regex class `\s` on `str` patterns (both are `Py_UNICODE_ISSPACE`): the
ASCII whitespace 0x09-0x0D and 0x20, the separator controls 0x1C-0x1F,
NEL 0x85, and the Unicode spaces NBSP 0xA0, Ogham 0x1680, 0x2000-0x200A,
line/paragraph separators 0x2028/0x2029, 0x202F, 0x205F, and the
ideographic space 0x3000. -/
def isPySpace (c : Char) : Bool :=
  decide ((9 ≤ c.toNat ∧ c.toNat ≤ 13) ∨ (28 ≤ c.toNat ∧ c.toNat ≤ 32) ∨
    c.toNat = 133 ∨ c.toNat = 160 ∨ c.toNat = 5760 ∨
    (8192 ≤ c.toNat ∧ c.toNat ≤ 8202) ∨ c.toNat = 8232 ∨ c.toNat = 8233 ∨
    c.toNat = 8239 ∨ c.toNat = 8287 ∨ c.toNat = 12288)

/-- Python `str.strip()`. -/
def pstrip (l : Str) : Str :=
  ((l.dropWhile isPySpace).reverse.dropWhile isPySpace).reverse

/-- The regex character class `[a-zA-Z0-9_]`. -/
def isWordChar (c : Char) : Bool := c.isAlpha || c.isDigit || c == '_'

/-- The match `re.match(r"^([a-zA-Z0-9_]+):\s*(.+?)\s*$", line)` applied to an
already stripped line: the key is the maximal word-character prefix, followed
immediately by a colon; the value is the rest with surrounding whitespace
removed and must be nonempty. -/
def matchKV (line : Str) : Option (Str × Str) :=
  let key := line.takeWhile isWordChar
  if key = [] then none
  else
    match line.drop key.length with
    | c :: rest =>
      if c == ':' then
        let v := pstrip rest
        if v = [] then none else some (key, v)
      else none
    | [] => none

/-- Removal of simple surrounding quotes (`val[1:-1]` when the value starts
and ends with `"` or starts and ends with `'`). -/
def stripQuotes (v : Str) : Str :=
  if (v.head? == some (Char.ofNat 34) && v.getLast? == some (Char.ofNat 34)) ||
     (v.head? == some (Char.ofNat 39) && v.getLast? == some (Char.ofNat 39)) then
    (v.drop 1).dropLast
  else v

def wantedKeys : List Str := [str ("name"), str ("version"), str ("tier"), str ("responsibility")]

/-- One iteration of the reader's line loop. -/
def scanStep (found : List (Str × Str)) (raw : Str) : List (Str × Str) :=
  let line := pstrip raw
  if line = [] then found
  else if line.head? == some '#' then found
  else
    match matchKV line with
    | none => found
    | some (k, v) =>
      if k ∈ wantedKeys then dictInsert k (stripQuotes v) found else found

def scanLines (lines : List Str) : List (Str × Str) := lines.foldl scanStep []

/-- The wanted keys that the scan did not find, in the order the script
checks them. -/
def missingKeysOf (lines : List Str) : List Str :=
  wantedKeys.filter (fun k => (lookupA k (scanLines lines)).isNone)

/-- Python `repr` of a list of strings, as interpolated into the error. -/
def pyRepr (l : List Str) : Str :=
  str ("[") ++
    List.intercalate (str (", ")) (l.map (fun s2 => Char.ofNat 39 :: (s2 ++ [Char.ofNat 39]))) ++
    str ("]")

/-- The message f-string: module.yaml missing required keys, the missing list, and the path. -/
def missingMsg (missing : List Str) (path : Str) : Str :=
  str ("module.yaml missing required keys ") ++ pyRepr missing ++ str (": ") ++ path

structure ModuleMeta where
  name : Str
  version : Str
  tier : Str
  responsibility : Str
deriving DecidableEq

/-- Reader `read_module_yaml_scalars`: scan the lines for top-level scalar keys;
fail when any of the four required keys is absent. -/
def read_module_yaml_scalars (path : Str) (lines : List Str) : Except Str ModuleMeta :=
  let found := scanLines lines
  let missing := wantedKeys.filter (fun k => (lookupA k found).isNone)
  if missing = [] then
    .ok ⟨(lookupA (str ("name")) found).getD [], (lookupA (str ("version")) found).getD [],
         (lookupA (str ("tier")) found).getD [], (lookupA (str ("responsibility")) found).getD []⟩
  else .error (missingMsg missing path)

/-! The module directory tree

A directory entry as `os.walk` / `lstat` see it.  For a regular file the
relevant `lstat` facts are whether the path is a symbolic link, the inode
number, the hard-link count, and the data plus the ownership/time metadata
that `gettarinfo` would copy into the archive entry.  A directory entry
carries its own is-symlink flag and its children in `os.scandir` order
(`os.walk` puts symlinks to directories in the `dirs` list and symlinks to
non-directories in the `files` list, which the constructors mirror). -/

structure FileAttrs where
  isSymlink : Bool
  ino : Nat
  nlink : Nat
  content : List Nat
  mtime : Nat
  uid : Nat
  gid : Nat
  uname : Str
  gname : Str
deriving DecidableEq

mutual
inductive FsNode where
  | file (name : Str) (attrs : FileAttrs)
  | dir (name : Str) (isSymlink : Bool) (children : FsList)
deriving DecidableEq

inductive FsList where
  | nil
  | cons (head : FsNode) (tail : FsList)
deriving DecidableEq
end

/-- Build an `FsList` from a `List FsNode` (scandir order preserved). -/
def fsL : List FsNode → FsList
  | [] => .nil
  | c :: cs => .cons c (fsL cs)

/-- Structural size used only to drive induction over the tree. -/
def listCount : FsList → Nat
  | .nil => 0
  | .cons (.file _ _) rest => 1 + listCount rest
  | .cons (.dir _ _ ch) rest => 1 + listCount ch + listCount rest

/-- Induction principle for `FsList` that also descends into directory
children (proved by strong induction on `listCount`). -/
theorem fsInd (Q : FsList → Prop) (hnil : Q .nil)
    (hfile : ∀ n a rest, Q rest → Q (.cons (.file n a) rest))
    (hdir : ∀ n s ch rest, Q ch → Q rest → Q (.cons (.dir n s ch) rest)) :
    ∀ cs, Q cs := by
  have key : ∀ k cs, listCount cs ≤ k → Q cs := by
    intro k
    induction k with
    | zero =>
      intro cs h
      cases cs with
      | nil => exact hnil
      | cons c rest => cases c <;> simp [listCount] at h
    | succ k ih =>
      intro cs h
      cases cs with
      | nil => exact hnil
      | cons c rest =>
        cases c with
        | file n a =>
          simp [listCount] at h
          exact hfile n a rest (ih rest (by omega))
        | dir n s ch =>
          simp [listCount] at h
          exact hdir n s ch rest (ih ch (by omega)) (ih rest (by omega))
  exact fun cs => key (listCount cs) cs le_rfl

/-! The file enumerator (`list_files`) -/

def symDirMsg (p : Str) : Str := str ("Refusing to package symlinked directory: ") ++ p

def symFileMsg (p : Str) : Str := str ("Refusing to package symlinked file: ") ++ p

/-- The first loop of an `os.walk` iteration: `for d in list(dirs): if
p.is_symlink(): raise`. -/
def checkDirs (modDir : Str) (pref : List Str) : FsList → Except Str Unit
  | .nil => .ok ()
  | .cons (.dir n true _) _ => .error (symDirMsg (pathOf modDir (pref ++ [n])))
  | .cons (.dir _ false _) rest => checkDirs modDir pref rest
  | .cons (.file _ _) rest => checkDirs modDir pref rest

/-- The second loop of an `os.walk` iteration: skip `.DS_Store`, reject
symlinked files, and record `p.relative_to(module_dir)` for the rest. -/
def collectFiles (modDir : Str) (pref : List Str) : FsList → Except Str (List (List Str × FileAttrs))
  | .nil => .ok []
  | .cons (.file n a) rest =>
    if n = str (".DS_Store") then collectFiles modDir pref rest
    else if a.isSymlink then .error (symFileMsg (pathOf modDir (pref ++ [n])))
    else
      match collectFiles modDir pref rest with
      | .error e => .error e
      | .ok r => .ok ((pref ++ [n], a) :: r)
  | .cons (.dir _ _ _) rest => collectFiles modDir pref rest

/-- The recursive part of `os.walk(module_dir, followlinks=False)` in
top-down order: after a directory's own triple has been processed
(`checkDirs` then `collectFiles`), each subdirectory's subtree is walked in
scandir order. -/
def walkSub (modDir : Str) (pref : List Str) : FsList → Except Str (List (List Str × FileAttrs))
  | .nil => .ok []
  | .cons (.file _ _) rest => walkSub modDir pref rest
  | .cons (.dir n _ ch) rest =>
    match checkDirs modDir (pref ++ [n]) ch with
    | .error e => .error e
    | .ok _ =>
      match collectFiles modDir (pref ++ [n]) ch with
      | .error e => .error e
      | .ok fs =>
        match walkSub modDir (pref ++ [n]) ch with
        | .error e => .error e
        | .ok a =>
          match walkSub modDir pref rest with
          | .error e => .error e
          | .ok b => .ok (fs ++ a ++ b)

/-- The whole traversal: the root triple of `os.walk`, then the recursion.
Returns the collected `(relative components, lstat attrs)` pairs in
traversal order. -/
def walkTree (modDir : Str) (cs : FsList) : Except Str (List (List Str × FileAttrs)) :=
  match checkDirs modDir [] cs with
  | .error e => .error e
  | .ok _ =>
    match collectFiles modDir [] cs with
    | .error e => .error e
    | .ok fs =>
      match walkSub modDir [] cs with
      | .error e => .error e
      | .ok a => .ok (fs ++ a)

/-- Enumerator `list_files`: traverse, render each relative path POSIX-style, and
`out.sort()`. -/
def list_files (modDir : Str) (cs : FsList) : Except Str (List Str) :=
  match walkTree modDir cs with
  | .error e => .error e
  | .ok ps => .ok (sortStrings (ps.map (fun p => joinPosix p.1)))

/-! Specification-side views of the tree (used to state the claims) -/

/-- The regular (non-symlink) files of the tree whose basename is not
`.DS_Store`, with their relative components, in tree order. -/
def regFilesPairs (pref : List Str) : FsList → List (List Str × FileAttrs)
  | .nil => []
  | .cons (.file n a) rest =>
    (if n ≠ str (".DS_Store") ∧ a.isSymlink = false then [(pref ++ [n], a)] else []) ++
      regFilesPairs pref rest
  | .cons (.dir n _ ch) rest => regFilesPairs (pref ++ [n]) ch ++ regFilesPairs pref rest

/-- The relative paths and contents of the module's regular files: the data
the archive is claimed to be a deterministic function of. -/
def filesContent (cs : FsList) : List (List Str × List Nat) :=
  (regFilesPairs [] cs).map (fun p => (p.1, p.2.content))

/-- The direct regular non-`.DS_Store` files of one directory, in scandir
order (what one `os.walk` triple's file loop keeps). -/
def directReg (pref : List Str) : FsList → List (List Str × FileAttrs)
  | .nil => []
  | .cons (.file n a) rest =>
    (if n ≠ str (".DS_Store") ∧ a.isSymlink = false then [(pref ++ [n], a)] else []) ++
      directReg pref rest
  | .cons (.dir _ _ _) rest => directReg pref rest

/-- The regular files contributed by the subdirectories of one directory,
in scandir order. -/
def subReg (pref : List Str) : FsList → List (List Str × FileAttrs)
  | .nil => []
  | .cons (.file _ _) rest => subReg pref rest
  | .cons (.dir n _ ch) rest => regFilesPairs (pref ++ [n]) ch ++ subReg pref rest

/-- Is there a symbolic link anywhere in the tree that the enumerator will
reject (any symlinked directory, or a symlinked file not named
`.DS_Store`)? -/
def hasBadSymlink : FsList → Bool
  | .nil => false
  | .cons (.file n a) rest => (a.isSymlink && !(n == str (".DS_Store"))) || hasBadSymlink rest
  | .cons (.dir _ true _) _ => true
  | .cons (.dir _ false ch) rest => hasBadSymlink ch || hasBadSymlink rest

def anyFs (p : FsNode → Bool) : FsList → Bool
  | .nil => false
  | .cons c cs => p c || anyFs p cs

/-- Does the tree contain a symbolic link (file or directory) at the given
relative path? -/
def symlinkAt : List Str → FsList → Bool
  | [], _ => false
  | [n], cs =>
    anyFs (fun c =>
      match c with
      | .file m a => m == n && a.isSymlink
      | .dir m s _ => m == n && s) cs
  | n :: m :: rp, cs =>
    anyFs (fun c =>
      match c with
      | .dir nm _ ch => nm == n && symlinkAt (m :: rp) ch
      | .file _ _ => false) cs

/-! The deterministic tarball builder (`build_tarball`) -/

/-- One archive entry after normalization (`arcname` is kept as components:
`module_name :: relative components`, i.e. `f"{module_name}/{rel}"`). -/
structure TarEntry where
  arcname : List Str
  uid : Nat
  gid : Nat
  uname : Str
  gname : Str
  mtime : Nat
  content : List Nat
deriving DecidableEq

/-- The logical archive: the gzip container's embedded timestamp and the
tar entries in the order they were added. -/
structure Tarball where
  gzipMtime : Nat
  entries : List TarEntry
deriving DecidableEq

def hardlinkMsg (p : Str) : Str := str ("Refusing to package symlink/hardlink: ") ++ p

def mkTarEntry (name : Str) (rel : List Str) (a : FileAttrs) : TarEntry :=
  { arcname := name :: rel, uid := 0, gid := 0, uname := str ("root"), gname := str ("root"),
    mtime := 0, content := a.content }

/-- The hard-link test of tarfile gettarinfo: the entry is a regular
file with `st_nlink > 1` whose `(st_ino, st_dev)` is already in the
archive's inode cache under a different arcname. -/
def hardHit (inodes : List (Nat × List Str)) (a : FileAttrs) (arc : List Str) : Bool :=
  decide (1 < a.nlink) &&
    (match List.lookup a.ino inodes with
     | some arc0 => decide (arc0 ≠ arc)
     | none => false)

/-- The `for rel in file_list` loop of `build_tarball`: build the tarinfo
via lstat (rejecting symlinks), detect hard links via the inode cache
(rejecting them), normalize uid/gid/uname/gname/mtime, and append the file
data.  The cache maps a (nonzero) inode to the arcname it was stored
under, newest binding first, exactly like the `self.inodes` dict. -/
def addEntries (modDir : Str) (name : Str) : List (Nat × List Str) →
    List (List Str × FileAttrs) → Except Str (List TarEntry)
  | _, [] => .ok []
  | inodes, (rel, a) :: rest =>
    if a.isSymlink then .error (hardlinkMsg (pathOf modDir rel))
    else if hardHit inodes a (name :: rel) then .error (hardlinkMsg (pathOf modDir rel))
    else
      match addEntries modDir name
          (if a.ino ≠ 0 then (a.ino, name :: rel) :: inodes else inodes) rest with
      | .error e => .error e
      | .ok es => .ok (mkTarEntry name rel a :: es)

/-- Sort key used when the builder iterates over `list_files`' already
sorted output: the POSIX rendering of the relative components. -/
def relLe (p q : List Str × FileAttrs) : Prop :=
  StrLeP (joinPosix p.1) (joinPosix q.1)

instance : DecidableRel relLe := fun p q => Bool.decEq (strLe (joinPosix p.1) (joinPosix q.1)) true

instance : IsTotal (List Str × FileAttrs) relLe := ⟨fun _ _ => strLe_total _ _⟩

instance : IsTrans (List Str × FileAttrs) relLe := ⟨fun _ _ _ => strLe_trans _ _ _⟩

def tarballName (name version : Str) : Str := name ++ str ("-") ++ version ++ str (".tar.gz")

/-- Projection of a walked pair to the data that actually reaches the
archive: relative components and file contents. -/
def pathContent (p : List Str × FileAttrs) : List Str × List Nat := (p.1, p.2.content)

/-- The sort key relation on projected pairs. -/
def contentLe (p q : List Str × List Nat) : Prop :=
  StrLeP (joinPosix p.1) (joinPosix q.1)

instance : DecidableRel contentLe := fun p q => Bool.decEq (strLe (joinPosix p.1) (joinPosix q.1)) true

instance : IsTotal (List Str × List Nat) contentLe := ⟨fun _ _ => strLe_total _ _⟩

instance : IsTrans (List Str × List Nat) contentLe := ⟨fun _ _ _ => strLe_trans _ _ _⟩

/-- A normalized archive entry as a function of path and contents alone. -/
def mkEntryPC (name : Str) (q : List Str × List Nat) : TarEntry :=
  { arcname := name :: q.1, uid := 0, gid := 0, uname := str ("root"), gname := str ("root"),
    mtime := 0, content := q.2 }

/-- The distinct top-level path components of the archive's entries. -/
def topLevels (tb : Tarball) : List (Option Str) :=
  (tb.entries.map (fun e => e.arcname.head?)).dedup

/-- Builder `build_tarball`: enumerate (as `list_files` does), iterate the files in
the sorted order, and emit the archive with gzip `mtime=0`.  (The script
re-resolves each sorted relative path against the immutable directory; here
the walk's `(rel, attrs)` pairs are sorted by the same key, which resolves
each sorted path to the same attributes.) -/
def build_tarball (modDir : Str) (cs : FsList) (name _version : Str) : Except Str Tarball :=
  match walkTree modDir cs with
  | .error e => .error e
  | .ok ps =>
    match addEntries modDir name [] (List.insertionSort relLe ps) with
    | .error e => .error e
    | .ok es => .ok { gzipMtime := 0, entries := es }

/-! The digest computer (`sha256_file`) -/

/-- The chunk sequence produced by `iter(lambda: f.read(1024 * 1024), b"")`
for a file whose bytes are `bs`: maximal blocks of `n` bytes (the final
block may be shorter), stopping at the empty read. -/
def readChunks (n : Nat) : List Nat → List (List Nat)
  | [] => []
  | b :: bs => List.take n (b :: bs) :: readChunks n (List.drop (n - 1) bs)
termination_by bs => bs.length
decreasing_by
  simp [List.length_drop]
  omega

/-- The byte sequence absorbed by the hash object: each chunk is fed to
`h.update`, so the digest is the hash of the chunks' concatenation. -/
def sha256Absorbed (bs : List Nat) : List Nat :=
  (readChunks (1024 * 1024) bs).foldl (fun acc c => acc ++ c) []

/-- Digest `sha256_file`, with the SHA-256 compression function abstracted as
`hexDigest` (hex-encoded digest of the absorbed bytes). -/
def sha256_file (hexDigest : List Nat → Str) (bs : List Nat) : Str :=
  hexDigest (sha256Absorbed bs)

/-! The registry entry assembler and `main` -/

structure EIdentity where
  name : Str
  nspace : Str
  version : Str
  spec_version : Str
deriving DecidableEq

structure EMetadata where
  description : Str
  description_zh : Str
  author : Str
  tier : Str
  license : Str
  repository : Str
  homepage : Str
  keywords : List Str
deriving DecidableEq

structure EDependencies where
  runtime_min : Str
  modulesDep : List Str
deriving DecidableEq

structure EDistribution where
  tarball : Str
  checksum : Str
  size_bytes : Nat
  files : List Str
deriving DecidableEq

structure ETimestamps where
  created_at : Str
  updated_at : Str
  deprecated_at : Option Str
deriving DecidableEq

structure RegEntry where
  schemaUrl : Str
  identity : EIdentity
  metadata : EMetadata
  dependencies : EDependencies
  distribution : EDistribution
  timestamps : ETimestamps
deriving DecidableEq

/-- One module's value in the legacy (v1) registry's `modules` mapping:
the three fields the script reads, each possibly absent. -/
structure V1Info where
  description : Option Str
  author : Option Str
  tags : Option (List Str)
deriving DecidableEq

/-- The legacy registry document: its `modules` mapping and the
`categories` value passed through verbatim (kept opaque). -/
structure V1Registry where
  modulesV1 : List (Str × V1Info)
  categories : Str
deriving DecidableEq

/-- The final registry index document. -/
structure Registry where
  schemaUrl : Str
  version : Str
  updated : Str
  modulesIdx : List (Str × RegEntry)
  categories : Str
  featured : List Str
  total_modules : Nat
  total_downloads : Nat
  last_updated : Str
deriving DecidableEq

/-- The build parameters (`argparse` surface) that the pipeline reads. -/
structure BuildArgs where
  tag : Str
  nspace : Str
  runtimeMin : Str
  repository : Str
  homepage : Str
  license : Str
  timestamp : Str
  only : List Str
deriving DecidableEq

/-- Python `x or default` on an optional string: `None` and the empty
string are both falsy. -/
def pyOr (o : Option Str) (d : Str) : Str :=
  match o with
  | none => d
  | some v => if v = [] then d else v

/-- Python `v1_info.get("tags") or []`. -/
def pyOrTags (o : Option (List Str)) : List Str :=
  match o with
  | none => []
  | some l => l

def downloadUrl (tag fname : Str) : Str :=
  str ("https://github.com/Cognary/cognitive/releases/download/") ++ tag ++ str ("/") ++ fname

/-- One loop iteration of `main` after the `--only` filter: legacy-metadata
merge, tarball build, digest, and assembly of the registry entry.  Returns
the entry together with the `(filename, tarball)` artifact written to the
output directory. -/
def buildEntry (tarBytes : Tarball → List Nat) (hexDigest : List Nat → Str)
    (args : BuildArgs) (v1mods : List (Str × V1Info)) (ts : Str)
    (meta : ModuleMeta) (dirPath : Str) (tree : FsList) :
    Except Str (RegEntry × (Str × Tarball)) :=
  let v1info := (lookupA meta.name v1mods).getD ⟨none, none, none⟩
  let description_zh := pyOr v1info.description meta.responsibility
  let author := pyOr v1info.author (str ("unknown"))
  let keywords := pyOrTags v1info.tags
  match build_tarball dirPath tree meta.name meta.version with
  | .error e => .error e
  | .ok tb =>
    let fname := tarballName meta.name meta.version
    let digest := sha256_file hexDigest (tarBytes tb)
    match list_files dirPath tree with
    | .error e => .error e
    | .ok files =>
      .ok ({ schemaUrl := str ("https://cognitive-modules.dev/schema/registry-entry-v1.json"),
             identity := { name := meta.name, nspace := args.nspace,
                           version := meta.version, spec_version := str ("2.2") },
             metadata := { description := description_zh, description_zh := description_zh,
                           author := author, tier := meta.tier, license := args.license,
                           repository := args.repository, homepage := args.homepage,
                           keywords := keywords },
             dependencies := { runtime_min := args.runtimeMin, modulesDep := [] },
             distribution := { tarball := downloadUrl args.tag fname,
                               checksum := str ("sha256:") ++ digest,
                               size_bytes := (tarBytes tb).length, files := files },
             timestamps := { created_at := ts, updated_at := ts, deprecated_at := none } },
           (fname, tb))

/-- One discovered module: its descriptor path (the glob result used for
sorting and error messages), the descriptor's lines, the module directory's
path, and the directory's tree. -/
structure ModuleInput where
  yamlPath : Str
  yamlLines : List Str
  dirPath : Str
  tree : FsList

/-- Split a POSIX path string into its components (the path's parts). -/
def splitOnSlash : Str → List Str
  | [] => [[]]
  | c :: rest =>
    if c = '/' then [] :: splitOnSlash rest
    else
      match splitOnSlash rest with
      | [] => [[c]]
      | h :: t => (c :: h) :: t

/-- Python list comparison on path parts: lexicographic component by
component, with a proper prefix sorting first. -/
def partsLe : List Str → List Str → Bool
  | [], _ => true
  | _ :: _, [] => false
  | a :: as2, b :: bs => if a = b then partsLe as2 bs else strLe a b

/-- Order of `sorted(modules_dir.glob("*/module.yaml"))`: `PurePath`
comparison on this Python (3.11) compares the paths' parts lists, not the
full path strings — the two differ when one sibling directory name is a
proper prefix of the other followed by a character below `/`. -/
def pathLe (a b : Str) : Bool := partsLe (splitOnSlash a) (splitOnSlash b)

def inputLe (a b : ModuleInput) : Prop := pathLe a.yamlPath b.yamlPath = true

instance : DecidableRel inputLe := fun a b => Bool.decEq (pathLe a.yamlPath b.yamlPath) true

/-- The `for module_yaml in sorted(...)` loop: read the descriptor, apply
the `--only` filter, build the entry, and fold it into the `entries` dict.
The first component accumulates the tarballs actually built; on the first
exception the loop stops with the error (nothing later runs, no index is
written). -/
def processAll (tarBytes : Tarball → List Nat) (hexDigest : List Nat → Str)
    (args : BuildArgs) (v1mods : List (Str × V1Info)) (ts : Str) (onlySet : List Str) :
    List ModuleInput → List (Str × RegEntry) → List (Str × Tarball) →
    (List (Str × Tarball)) × Except Str (List (Str × RegEntry))
  | [], entries, archives => (archives, .ok entries)
  | m :: rest, entries, archives =>
    match read_module_yaml_scalars m.yamlPath m.yamlLines with
    | .error e => (archives, .error e)
    | .ok meta =>
      if onlySet ≠ [] ∧ meta.name ∉ onlySet then
        processAll tarBytes hexDigest args v1mods ts onlySet rest entries archives
      else
        match buildEntry tarBytes hexDigest args v1mods ts meta m.dirPath m.tree with
        | .error e => (archives, .error e)
        | .ok (entry, arch) =>
          processAll tarBytes hexDigest args v1mods ts onlySet rest
            (dictInsert meta.name entry entries) (archives ++ [arch])

/-- Pipeline `main` from the registry load onward: compute the timestamp and the
`--only` set, process the sorted module descriptors, and assemble the
index document.  Returns the tarballs built during the run and either the
error that aborted it (no index is written) or the index. -/
def runBuild (tarBytes : Tarball → List Nat) (hexDigest : List Nat → Str)
    (args : BuildArgs) (nowTs : Str) (v1 : V1Registry) (inputs : List ModuleInput) :
    (List (Str × Tarball)) × Except Str Registry :=
  let onlySet := (args.only.map pstrip).filter (fun x => x ≠ [])
  let ts := if pstrip args.timestamp = [] then nowTs else pstrip args.timestamp
  match processAll tarBytes hexDigest args v1.modulesV1 ts onlySet
      (List.insertionSort inputLe inputs) [] [] with
  | (archives, .error e) => (archives, .error e)
  | (archives, .ok entries) =>
    (archives,
     .ok { schemaUrl := str ("https://cognitive-modules.dev/schema/registry-v2.json"),
           version := str ("2.0.0"), updated := ts, modulesIdx := entries,
           categories := v1.categories, featured := entries.map Prod.fst,
           total_modules := entries.length, total_downloads := 0, last_updated := ts })

/-! General sorting lemmas -/

theorem sortStrings_eq_of_perm {l1 l2 : List Str} (h : l1.Perm l2) :
    sortStrings l1 = sortStrings l2 := by
  exact List.eq_of_perm_of_sorted
    ((List.perm_insertionSort _ _).trans (h.trans (List.perm_insertionSort _ _).symm))
    (List.sorted_insertionSort _ _) (List.sorted_insertionSort _ _)

theorem sorted_keyed_eq {z1 z2 : List (List Str × List Nat)}
    (hp : z1.Perm z2)
    (hs1 : List.Sorted contentLe z1) (hs2 : List.Sorted contentLe z2)
    (hnd : (z1.map (fun p => joinPosix p.1)).Nodup) : z1 = z2 := by
  haveI anti : IsAntisymm (List Str × List Nat)
      (fun p q => contentLe p q ∧ joinPosix p.1 ≠ joinPosix q.1) :=
    ⟨fun a b h1 h2 => absurd (strLe_antisymm _ _ h1.1 h2.1) h1.2⟩
  have hnd2 : (z2.map (fun p => joinPosix p.1)).Nodup := (hp.map _).nodup_iff.mp hnd
  have key1 : List.Pairwise (fun a b => joinPosix a.1 ≠ joinPosix b.1) z1 :=
    List.pairwise_map.mp hnd
  have key2 : List.Pairwise (fun a b => joinPosix a.1 ≠ joinPosix b.1) z2 :=
    List.pairwise_map.mp hnd2
  exact List.eq_of_perm_of_sorted hp (hs1.and key1) (hs2.and key2)

/-! Lemmas about the YAML scalar reader -/

theorem dropWhile_append_of_all {p : Char → Bool} {sp l : List Char}
    (h : ∀ c ∈ sp, p c = true) : (sp ++ l).dropWhile p = l.dropWhile p := by
  induction sp with
  | nil => rfl
  | cons c cs ih =>
    have hc : p c = true := h c (by simp)
    simp only [List.cons_append, List.dropWhile_cons, hc, if_true]
    exact ih (fun d hd => h d (by simp [hd]))

theorem pstrip_prepend_spaces {sp l : Str} (h : ∀ c ∈ sp, isPySpace c = true) :
    pstrip (sp ++ l) = pstrip l := by
  unfold pstrip
  rw [dropWhile_append_of_all h]

theorem scanStep_skip {found : List (Str × Str)} {raw : Str}
    (h : matchKV (pstrip raw) = none) : scanStep found raw = found := by
  unfold scanStep
  by_cases h0 : pstrip raw = []
  · simp [h0]
  · by_cases h1 : (pstrip raw).head? == some '#'
    · simp [h0, h1]
    · simp [h0, h1, h]

theorem scanStep_notWanted {found : List (Str × Str)} {raw k v : Str}
    (hm : matchKV (pstrip raw) = some (k, v)) (hk : k ∉ wantedKeys) :
    scanStep found raw = found := by
  unfold scanStep
  by_cases h0 : pstrip raw = []
  · simp [h0]
  · by_cases h1 : (pstrip raw).head? == some '#'
    · simp [h0, h1]
    · simp [h0, h1, hm, hk]

theorem scanLines_split (pre post : List Str) (x : Str) :
    scanLines (pre ++ x :: post) =
      List.foldl scanStep (scanStep (scanLines pre) x) post := by
  simp [scanLines, List.foldl_append]

theorem read_congr_scan (path : Str) {lines1 lines2 : List Str}
    (h : scanLines lines1 = scanLines lines2) :
    read_module_yaml_scalars path lines1 = read_module_yaml_scalars path lines2 := by
  unfold read_module_yaml_scalars
  rw [h]

/-! Claim C8 -/

/-- Claim C8: if any of the four required keys `name`, `version`, `tier`,
`responsibility` is absent from a module descriptor, reading it fails with
the `MetadataIncomplete` error naming exactly the missing keys and the
offending path, no defaults are synthesized, and a run that reaches this
module aborts: it builds nothing and writes no index. -/
theorem c8_missing_keys_fail (path : Str) (lines : List Str)
    (h : missingKeysOf lines ≠ []) :
    read_module_yaml_scalars path lines = .error (missingMsg (missingKeysOf lines) path) ∧
    ∀ (tarBytes : Tarball → List Nat) (hexDigest : List Nat → Str) (args : BuildArgs)
      (nowTs : Str) (v1 : V1Registry) (dirPath : Str) (tree : FsList),
      runBuild tarBytes hexDigest args nowTs v1 [⟨path, lines, dirPath, tree⟩] =
        ([], .error (missingMsg (missingKeysOf lines) path)) := by
  have hread : read_module_yaml_scalars path lines =
      .error (missingMsg (missingKeysOf lines) path) := by
    unfold missingKeysOf at h
    unfold read_module_yaml_scalars missingKeysOf
    rw [if_neg h]
  refine ⟨hread, ?_⟩
  intro tarBytes hexDigest args nowTs v1 dirPath tree
  have hsort : List.insertionSort inputLe [(⟨path, lines, dirPath, tree⟩ : ModuleInput)] =
      [⟨path, lines, dirPath, tree⟩] := rfl
  unfold runBuild
  rw [hsort]
  unfold processAll
  rw [hread]

/-- Witness for C8 at a concrete descriptor missing `tier` and
`responsibility`. -/
theorem c8_missing_keys_fail_witness :
    missingKeysOf [str ("name: a"), str ("version: b")] ≠ [] ∧
    read_module_yaml_scalars (str ("mods/x/module.yaml")) [str ("name: a"), str ("version: b")] =
      .error (missingMsg (missingKeysOf [str ("name: a"), str ("version: b")])
        (str ("mods/x/module.yaml"))) :=
  ⟨by decide,
   (c8_missing_keys_fail (str ("mods/x/module.yaml")) [str ("name: a"), str ("version: b")]
     (by decide)).1⟩

/-! Claim C9 -/

/-- Counterexample to claim C9 as stated: the reader strips leading
whitespace before matching, so a `key: value` line nested inside another
YAML construct (here `outer:` followed by an indented mapping line) does
contribute a value.  With the indented line the read succeeds and
`responsibility` comes from the nested line; without it the read fails. -/
theorem c9_nested_lines_counterexample :
    read_module_yaml_scalars (str ("m/module.yaml"))
      [str ("name: a"), str ("version: b"), str ("tier: c"), str ("outer:"),
       str ("  responsibility: hidden")] =
      .ok ⟨str ("a"), str ("b"), str ("c"), str ("hidden")⟩ ∧
    (read_module_yaml_scalars (str ("m/module.yaml"))
      [str ("name: a"), str ("version: b"), str ("tier: c"), str ("outer:")]).isOk = false := by
  decide

/-- Claim C9 (amended): the reader extracts the four fields from every line
whose whitespace-stripped form matches `key: value` with a word-character
key — leading indentation is immaterial, so scalar lines nested inside
other YAML constructs also contribute when their key is one of the four;
lines whose stripped form does not match the shape (blank lines, comments,
list items, bare `key:` lines) and matching lines with a key other than the
four never contribute. -/
theorem c9_reader_line_shape_amended (path : Str) (pre post : List Str) (l sp : Str)
    (hsp : ∀ c ∈ sp, isPySpace c = true) :
    read_module_yaml_scalars path (pre ++ (sp ++ l) :: post) =
      read_module_yaml_scalars path (pre ++ l :: post) ∧
    (matchKV (pstrip l) = none →
      read_module_yaml_scalars path (pre ++ l :: post) =
        read_module_yaml_scalars path (pre ++ post)) ∧
    (∀ k v, matchKV (pstrip l) = some (k, v) → k ∉ wantedKeys →
      read_module_yaml_scalars path (pre ++ l :: post) =
        read_module_yaml_scalars path (pre ++ post)) := by
  refine ⟨?_, ?_, ?_⟩
  · apply read_congr_scan
    rw [scanLines_split, scanLines_split]
    have : scanStep (scanLines pre) (sp ++ l) = scanStep (scanLines pre) l := by
      unfold scanStep
      rw [pstrip_prepend_spaces hsp]
    rw [this]
  · intro hm
    apply read_congr_scan
    rw [scanLines_split, scanStep_skip hm]
    simp [scanLines, List.foldl_append]
  · intro k v hm hk
    apply read_congr_scan
    rw [scanLines_split, scanStep_notWanted hm hk]
    simp [scanLines, List.foldl_append]

/-- Witness for C9 (amended) at concrete lines: a wanted line indented with
a no-break space (U+00A0, stripped by Python but not ASCII) equals its
unindented form, and a list-item line contributes nothing. -/
theorem c9_reader_line_shape_amended_witness :
    read_module_yaml_scalars (str ("p")) [Char.ofNat 160 :: str ("tier: core")] =
      read_module_yaml_scalars (str ("p")) [str ("tier: core")] ∧
    read_module_yaml_scalars (str ("p")) [str ("name: a"), str ("- item")] =
      read_module_yaml_scalars (str ("p")) [str ("name: a")] := by
  have h1 := c9_reader_line_shape_amended (str ("p")) [] [] (str ("tier: core"))
    [Char.ofNat 160] (by decide)
  have h2 := c9_reader_line_shape_amended (str ("p")) [str ("name: a")] [] (str ("- item")) []
    (by decide)
  exact ⟨h1.1, h2.2.1 (by decide)⟩

/-! Lemmas about the traversal -/

theorem collectFiles_ok (d : Str) (pref : List Str) :
    ∀ cs fs, collectFiles d pref cs = .ok fs → fs = directReg pref cs := by
  intro cs
  induction cs using fsInd with
  | hnil =>
    intro fs h
    simp [collectFiles] at h
    simp [directReg, h.symm]
  | hfile n a rest ih =>
    intro fs h
    by_cases hds : n = str (".DS_Store")
    · rw [collectFiles, if_pos hds] at h
      simp [directReg, hds, ih fs h]
    · rw [collectFiles, if_neg hds] at h
      by_cases hsym : a.isSymlink = true
      · rw [if_pos hsym] at h
        exact absurd h (by simp)
      · rw [if_neg hsym] at h
        cases hr : collectFiles d pref rest with
        | error e => rw [hr] at h; exact absurd h (by simp)
        | ok r =>
          rw [hr] at h
          have hfs : fs = (pref ++ [n], a) :: r := by
            cases h; rfl
          have hb : a.isSymlink = false := by
            cases hx : a.isSymlink
            · rfl
            · exact absurd hx hsym
          simp [directReg, hds, hb, hfs, ih r hr]
  | hdir n s ch rest ihch ih =>
    intro fs h
    rw [collectFiles] at h
    simp [directReg, ih fs h]

theorem reg_split : ∀ cs pref,
    (regFilesPairs pref cs).Perm (directReg pref cs ++ subReg pref cs) := by
  intro cs
  induction cs using fsInd with
  | hnil => intro pref; simp [regFilesPairs, directReg, subReg]
  | hfile n a rest ih =>
    intro pref
    rw [regFilesPairs, directReg, subReg, List.append_assoc]
    exact (ih pref).append_left _
  | hdir n s ch rest ihch ih =>
    intro pref
    rw [regFilesPairs, directReg, subReg]
    exact ((ih pref).append_left (regFilesPairs (pref ++ [n]) ch)).trans
      (List.perm_append_comm_assoc _ _ _)

theorem walkSub_ok_perm (d : Str) :
    ∀ cs pref ps, walkSub d pref cs = .ok ps → ps.Perm (subReg pref cs) := by
  intro cs
  induction cs using fsInd with
  | hnil =>
    intro pref ps h
    simp [walkSub] at h
    simp [subReg, h.symm]
  | hfile n a rest ih =>
    intro pref ps h
    rw [walkSub] at h
    rw [subReg]
    exact ih pref ps h
  | hdir n s ch rest ihch ih =>
    intro pref ps h
    rw [walkSub] at h
    cases hc : checkDirs d (pref ++ [n]) ch with
    | error e => rw [hc] at h; exact absurd h (by simp)
    | ok u =>
      rw [hc] at h
      cases hf : collectFiles d (pref ++ [n]) ch with
      | error e => rw [hf] at h; exact absurd h (by simp)
      | ok fs =>
        rw [hf] at h
        cases ha : walkSub d (pref ++ [n]) ch with
        | error e => rw [ha] at h; exact absurd h (by simp)
        | ok a2 =>
          rw [ha] at h
          cases hb : walkSub d pref rest with
          | error e => rw [hb] at h; exact absurd h (by simp)
          | ok b2 =>
            rw [hb] at h
            have hps : ps = fs ++ a2 ++ b2 := by cases h; rfl
            rw [hps, subReg, collectFiles_ok d (pref ++ [n]) ch fs hf]
            have h4 : ((directReg (pref ++ [n]) ch ++ a2) ++ b2).Perm
                ((directReg (pref ++ [n]) ch ++ subReg (pref ++ [n]) ch) ++ subReg pref rest) :=
              ((ihch (pref ++ [n]) a2 ha).append_left _).append (ih pref b2 hb)
            exact h4.trans ((reg_split ch (pref ++ [n])).symm.append_right _)

theorem walkTree_ok_perm (d : Str) (cs : FsList) (ps : List (List Str × FileAttrs))
    (h : walkTree d cs = .ok ps) : ps.Perm (regFilesPairs [] cs) := by
  rw [walkTree] at h
  cases hc : checkDirs d [] cs with
  | error e => rw [hc] at h; exact absurd h (by simp)
  | ok u =>
    rw [hc] at h
    cases hf : collectFiles d [] cs with
    | error e => rw [hf] at h; exact absurd h (by simp)
    | ok fs =>
      rw [hf] at h
      cases ha : walkSub d [] cs with
      | error e => rw [ha] at h; exact absurd h (by simp)
      | ok a2 =>
        rw [ha] at h
        have hps : ps = fs ++ a2 := by cases h; rfl
        rw [hps, collectFiles_ok d [] cs fs hf]
        exact ((walkSub_ok_perm d cs [] a2 ha).append_left _).trans (reg_split cs []).symm

theorem symlinkAt_ne_nil {rel : List Str} {cs : FsList} (h : symlinkAt rel cs = true) :
    rel ≠ [] := by
  cases rel with
  | nil => simp [symlinkAt] at h
  | cons n rp => simp

theorem symlinkAt_cons_tail {p : List Str} (c : FsNode) {rest : FsList}
    (h : symlinkAt p rest = true) : symlinkAt p (.cons c rest) = true := by
  cases p with
  | nil => simp [symlinkAt] at h
  | cons n rp =>
    cases rp with
    | nil =>
      rw [symlinkAt] at h ⊢
      rw [anyFs, h]
      simp
    | cons m rp2 =>
      rw [symlinkAt] at h ⊢
      rw [anyFs, h]
      simp

theorem symlinkAt_head_dirSym (n : Str) (ch : FsList) (rest : FsList) :
    symlinkAt [n] (.cons (.dir n true ch) rest) = true := by
  rw [symlinkAt, anyFs]
  simp

theorem symlinkAt_head_fileSym {a : FileAttrs} (n : Str) (rest : FsList)
    (h : a.isSymlink = true) : symlinkAt [n] (.cons (.file n a) rest) = true := by
  rw [symlinkAt, anyFs]
  simp [h]

theorem symlinkAt_head_dir {rel : List Str} (n : Str) (s : Bool) (ch rest : FsList)
    (hne : rel ≠ []) (h : symlinkAt rel ch = true) :
    symlinkAt (n :: rel) (.cons (.dir n s ch) rest) = true := by
  cases rel with
  | nil => exact absurd rfl hne
  | cons m rp =>
    rw [symlinkAt, anyFs]
    simp [h]

theorem checkDirs_error (d : Str) (pref : List Str) :
    ∀ cs e, checkDirs d pref cs = .error e →
      ∃ n, e = symDirMsg (pathOf d (pref ++ [n])) ∧ symlinkAt [n] cs = true := by
  intro cs
  induction cs using fsInd with
  | hnil => intro e h; simp [checkDirs] at h
  | hfile n a rest ih =>
    intro e h
    rw [checkDirs] at h
    obtain ⟨n2, he, hs⟩ := ih e h
    exact ⟨n2, he, symlinkAt_cons_tail _ hs⟩
  | hdir n s ch rest ihch ih =>
    intro e h
    cases s with
    | true =>
      rw [checkDirs] at h
      have he : e = symDirMsg (pathOf d (pref ++ [n])) := by
        cases h; rfl
      exact ⟨n, he, symlinkAt_head_dirSym n ch rest⟩
    | false =>
      rw [checkDirs] at h
      obtain ⟨n2, he, hs⟩ := ih e h
      exact ⟨n2, he, symlinkAt_cons_tail _ hs⟩

theorem collectFiles_error (d : Str) (pref : List Str) :
    ∀ cs e, collectFiles d pref cs = .error e →
      ∃ n, e = symFileMsg (pathOf d (pref ++ [n])) ∧ symlinkAt [n] cs = true := by
  intro cs
  induction cs using fsInd with
  | hnil => intro e h; simp [collectFiles] at h
  | hfile n a rest ih =>
    intro e h
    rw [collectFiles] at h
    by_cases hds : n = str (".DS_Store")
    · rw [if_pos hds] at h
      obtain ⟨n2, he, hs⟩ := ih e h
      exact ⟨n2, he, symlinkAt_cons_tail _ hs⟩
    · rw [if_neg hds] at h
      by_cases hsym : a.isSymlink = true
      · rw [if_pos hsym] at h
        have he : e = symFileMsg (pathOf d (pref ++ [n])) := by
          cases h; rfl
        exact ⟨n, he, symlinkAt_head_fileSym n rest hsym⟩
      · rw [if_neg hsym] at h
        cases hr : collectFiles d pref rest with
        | error e2 =>
          rw [hr] at h
          have he2 : e = e2 := by cases h; rfl
          obtain ⟨n2, hee, hs⟩ := ih e2 hr
          exact ⟨n2, he2 ▸ hee, symlinkAt_cons_tail _ hs⟩
        | ok r =>
          rw [hr] at h
          exact absurd h (by simp)
  | hdir n s ch rest ihch ih =>
    intro e h
    rw [collectFiles] at h
    obtain ⟨n2, he, hs⟩ := ih e h
    exact ⟨n2, he, symlinkAt_cons_tail _ hs⟩

theorem walkSub_error (d : Str) :
    ∀ cs pref e, walkSub d pref cs = .error e →
      ∃ rel, symlinkAt rel cs = true ∧
        (e = symDirMsg (pathOf d (pref ++ rel)) ∨ e = symFileMsg (pathOf d (pref ++ rel))) := by
  intro cs
  induction cs using fsInd with
  | hnil => intro pref e h; simp [walkSub] at h
  | hfile n a rest ih =>
    intro pref e h
    rw [walkSub] at h
    obtain ⟨rel, hs, hor⟩ := ih pref e h
    exact ⟨rel, symlinkAt_cons_tail _ hs, hor⟩
  | hdir n s ch rest ihch ih =>
    intro pref e h
    rw [walkSub] at h
    cases hc : checkDirs d (pref ++ [n]) ch with
    | error e1 =>
      rw [hc] at h
      have he : e = e1 := by cases h; rfl
      obtain ⟨n2, he1, hs⟩ := checkDirs_error d (pref ++ [n]) ch e1 hc
      refine ⟨[n, n2], symlinkAt_head_dir n s ch rest (by simp) hs, Or.inl ?_⟩
      rw [he, he1, List.append_assoc]
      rfl
    | ok u =>
      rw [hc] at h
      cases hf : collectFiles d (pref ++ [n]) ch with
      | error e1 =>
        rw [hf] at h
        have he : e = e1 := by cases h; rfl
        obtain ⟨n2, he1, hs⟩ := collectFiles_error d (pref ++ [n]) ch e1 hf
        refine ⟨[n, n2], symlinkAt_head_dir n s ch rest (by simp) hs, Or.inr ?_⟩
        rw [he, he1, List.append_assoc]
        rfl
      | ok fs =>
        rw [hf] at h
        cases ha : walkSub d (pref ++ [n]) ch with
        | error e1 =>
          rw [ha] at h
          have he : e = e1 := by cases h; rfl
          obtain ⟨rel2, hs2, hor⟩ := ihch (pref ++ [n]) e1 ha
          refine ⟨n :: rel2, symlinkAt_head_dir n s ch rest (symlinkAt_ne_nil hs2) hs2, ?_⟩
          rw [he, List.append_cons]
          exact hor
        | ok a2 =>
          rw [ha] at h
          cases hb : walkSub d pref rest with
          | error e1 =>
            rw [hb] at h
            have he : e = e1 := by cases h; rfl
            obtain ⟨rel, hs, hor⟩ := ih pref e1 hb
            exact ⟨rel, symlinkAt_cons_tail _ hs, he ▸ hor⟩
          | ok b2 =>
            rw [hb] at h
            exact absurd h (by simp)

theorem walkTree_error (d : Str) (cs : FsList) (e : Str)
    (h : walkTree d cs = .error e) :
    ∃ rel, symlinkAt rel cs = true ∧
      (e = symDirMsg (pathOf d rel) ∨ e = symFileMsg (pathOf d rel)) := by
  rw [walkTree] at h
  cases hc : checkDirs d [] cs with
  | error e1 =>
    rw [hc] at h
    have he : e = e1 := by cases h; rfl
    obtain ⟨n2, he1, hs⟩ := checkDirs_error d [] cs e1 hc
    exact ⟨[n2], hs, Or.inl (by rw [he, he1]; rfl)⟩
  | ok u =>
    rw [hc] at h
    cases hf : collectFiles d [] cs with
    | error e1 =>
      rw [hf] at h
      have he : e = e1 := by cases h; rfl
      obtain ⟨n2, he1, hs⟩ := collectFiles_error d [] cs e1 hf
      exact ⟨[n2], hs, Or.inr (by rw [he, he1]; rfl)⟩
    | ok fs =>
      rw [hf] at h
      cases ha : walkSub d [] cs with
      | error e1 =>
        rw [ha] at h
        have he : e = e1 := by cases h; rfl
        obtain ⟨rel, hs, hor⟩ := walkSub_error d cs [] e1 ha
        exact ⟨rel, hs, by rw [he]; simpa using hor⟩
      | ok a2 =>
        rw [ha] at h
        exact absurd h (by simp)

theorem walk_ok_noBad (d : Str) :
    ∀ cs pref u fs ps, checkDirs d pref cs = .ok u → collectFiles d pref cs = .ok fs →
      walkSub d pref cs = .ok ps → hasBadSymlink cs = false := by
  intro cs
  induction cs using fsInd with
  | hnil => intro pref u fs ps _ _ _; rfl
  | hfile n a rest ih =>
    intro pref u fs ps hc hf hw
    rw [checkDirs] at hc
    rw [walkSub] at hw
    rw [collectFiles] at hf
    by_cases hds : n = str (".DS_Store")
    · rw [if_pos hds] at hf
      rw [hasBadSymlink]
      simp [hds, ih pref u fs ps hc hf hw]
    · rw [if_neg hds] at hf
      by_cases hsym : a.isSymlink = true
      · rw [if_pos hsym] at hf
        exact absurd hf (by simp)
      · rw [if_neg hsym] at hf
        have hb : a.isSymlink = false := by
          cases hx : a.isSymlink
          · rfl
          · exact absurd hx hsym
        cases hr : collectFiles d pref rest with
        | error e => rw [hr] at hf; exact absurd hf (by simp)
        | ok r =>
          rw [hasBadSymlink]
          simp [hb, ih pref u r ps hc hr hw]
  | hdir n s ch rest ihch ih =>
    intro pref u fs ps hc hf hw
    cases s with
    | true =>
      rw [checkDirs] at hc
      exact absurd hc (by simp)
    | false =>
      rw [checkDirs] at hc
      rw [collectFiles] at hf
      rw [walkSub] at hw
      cases hc2 : checkDirs d (pref ++ [n]) ch with
      | error e => rw [hc2] at hw; exact absurd hw (by simp)
      | ok u2 =>
        rw [hc2] at hw
        cases hf2 : collectFiles d (pref ++ [n]) ch with
        | error e => rw [hf2] at hw; exact absurd hw (by simp)
        | ok fs2 =>
          rw [hf2] at hw
          cases ha : walkSub d (pref ++ [n]) ch with
          | error e => rw [ha] at hw; exact absurd hw (by simp)
          | ok a2 =>
            rw [ha] at hw
            cases hb2 : walkSub d pref rest with
            | error e => rw [hb2] at hw; exact absurd hw (by simp)
            | ok b2 =>
              rw [hasBadSymlink]
              simp [ihch (pref ++ [n]) u2 fs2 a2 hc2 hf2 ha,
                ih pref u fs b2 hc hf hb2]

theorem walkTree_ok_noBad (d : Str) (cs : FsList) (ps : List (List Str × FileAttrs))
    (h : walkTree d cs = .ok ps) : hasBadSymlink cs = false := by
  rw [walkTree] at h
  cases hc : checkDirs d [] cs with
  | error e => rw [hc] at h; exact absurd h (by simp)
  | ok u =>
    rw [hc] at h
    cases hf : collectFiles d [] cs with
    | error e => rw [hf] at h; exact absurd h (by simp)
    | ok fs =>
      rw [hf] at h
      cases ha : walkSub d [] cs with
      | error e => rw [ha] at h; exact absurd h (by simp)
      | ok a2 => exact walk_ok_noBad d cs [] u fs a2 hc hf ha

/-! Claim C5 -/

/-- Claim C5: a successful enumeration returns exactly the POSIX-style
relative paths of the module's regular files, excluding `.DS_Store`,
lexicographically sorted; every element names a regular file (so there are
no directory entries); and the manifest is independent of the traversal
order: any tree whose regular-file paths are a permutation of this one
(e.g. the same directory scanned in a different order) yields the very
same manifest. -/
theorem c5_manifest_sorted (modDir : Str) (cs : FsList) (m : List Str)
    (h : list_files modDir cs = .ok m) :
    m = sortStrings ((regFilesPairs [] cs).map (fun p => joinPosix p.1)) ∧
    (∀ q ∈ m, ∃ p, p ∈ regFilesPairs [] cs ∧ q = joinPosix p.1) ∧
    (∀ (modDir2 : Str) (cs2 : FsList) (m2 : List Str),
      list_files modDir2 cs2 = .ok m2 →
      ((regFilesPairs [] cs2).map (fun p => joinPosix p.1)).Perm
        ((regFilesPairs [] cs).map (fun p => joinPosix p.1)) →
      m2 = m) := by
  have main : ∀ (d : Str) (t : FsList) (out : List Str), list_files d t = .ok out →
      out = sortStrings ((regFilesPairs [] t).map (fun p => joinPosix p.1)) := by
    intro d t out hout
    rw [list_files] at hout
    cases hw : walkTree d t with
    | error e => rw [hw] at hout; exact absurd hout (by simp)
    | ok ps =>
      rw [hw] at hout
      have hm : out = sortStrings (ps.map (fun p => joinPosix p.1)) := by
        cases hout; rfl
      rw [hm]
      exact sortStrings_eq_of_perm ((walkTree_ok_perm d t ps hw).map _)
  have h1 := main modDir cs m h
  refine ⟨h1, ?_, ?_⟩
  · intro q hq
    have hq2 : q ∈ (regFilesPairs [] cs).map (fun p => joinPosix p.1) := by
      rw [h1] at hq
      exact (List.mem_insertionSort StrLeP).mp hq
    obtain ⟨p, hp, hpq⟩ := List.mem_map.mp hq2
    exact ⟨p, hp, hpq.symm⟩
  · intro modDir2 cs2 m2 h2 hperm
    rw [main modDir2 cs2 m2 h2, h1]
    exact sortStrings_eq_of_perm hperm

/-- Witness for C5: a concrete directory, and the same directory with its
children scanned in the opposite order, both yield the same sorted
manifest. -/
theorem c5_manifest_sorted_witness :
    list_files (str ("/m"))
      (fsL [.file (str ("b")) ⟨false, 1, 1, [1], 5, 7, 7, str ("u"), str ("g")⟩,
            .dir (str ("d")) false (fsL [.file (str ("a")) ⟨false, 2, 1, [2], 5, 7, 7, str ("u"), str ("g")⟩])]) =
      .ok [str ("b"), str ("d/a")] ∧
    list_files (str ("/elsewhere"))
      (fsL [.dir (str ("d")) false (fsL [.file (str ("a")) ⟨false, 9, 1, [4], 0, 0, 0, str ("x"), str ("y")⟩]),
            .file (str ("b")) ⟨false, 8, 1, [3], 0, 0, 0, str ("x"), str ("y")⟩]) =
      .ok [str ("b"), str ("d/a")] := by
  have h1 := c5_manifest_sorted (str ("/m"))
    (fsL [.file (str ("b")) ⟨false, 1, 1, [1], 5, 7, 7, str ("u"), str ("g")⟩,
          .dir (str ("d")) false (fsL [.file (str ("a")) ⟨false, 2, 1, [2], 5, 7, 7, str ("u"), str ("g")⟩])])
    [str ("b"), str ("d/a")] (by decide)
  have h2 := h1.2.2 (str ("/elsewhere"))
    (fsL [.dir (str ("d")) false (fsL [.file (str ("a")) ⟨false, 9, 1, [4], 0, 0, 0, str ("x"), str ("y")⟩]),
          .file (str ("b")) ⟨false, 8, 1, [3], 0, 0, 0, str ("x"), str ("y")⟩])
    [str ("b"), str ("d/a")] (by decide) (by decide)
  exact ⟨by decide, h2 ▸ (by decide)⟩

/-! Claim C2 -/

/-- Counterexample to claim C2 as stated: a module root containing a
symbolic link can build successfully.  The file loop skips the name
`.DS_Store` before the symlink check, so a non-directory symlink named
`.DS_Store` is silently ignored: enumeration succeeds, an archive is
built, and the run produces an index. -/
theorem c2_symlink_dsstore_counterexample :
    symlinkAt [str (".DS_Store")]
      (fsL [.file (str (".DS_Store")) ⟨true, 1, 1, [], 0, 0, 0, str ("u"), str ("g")⟩,
            .file (str ("module.yaml")) ⟨false, 2, 1, [1], 0, 0, 0, str ("u"), str ("g")⟩]) = true ∧
    list_files (str ("/m"))
      (fsL [.file (str (".DS_Store")) ⟨true, 1, 1, [], 0, 0, 0, str ("u"), str ("g")⟩,
            .file (str ("module.yaml")) ⟨false, 2, 1, [1], 0, 0, 0, str ("u"), str ("g")⟩]) =
      .ok [str ("module.yaml")] ∧
    ((runBuild (fun _ => []) (fun _ => str ("d"))
        ⟨str ("v1"), str ("official"), str ("2.2.0"), str ("R"), str ("H"), str ("MIT"), str (""), []⟩
        (str ("T0")) ⟨[], str ("cats")⟩
        [⟨str ("m/module.yaml"),
          [str ("name: m"), str ("version: 1.0"), str ("tier: core"), str ("responsibility: r")],
          str ("/m"),
          fsL [.file (str (".DS_Store")) ⟨true, 1, 1, [], 0, 0, 0, str ("u"), str ("g")⟩,
               .file (str ("module.yaml")) ⟨false, 2, 1, [1], 0, 0, 0, str ("u"), str ("g")⟩]⟩]).1).length = 1 ∧
    ((runBuild (fun _ => []) (fun _ => str ("d"))
        ⟨str ("v1"), str ("official"), str ("2.2.0"), str ("R"), str ("H"), str ("MIT"), str (""), []⟩
        (str ("T0")) ⟨[], str ("cats")⟩
        [⟨str ("m/module.yaml"),
          [str ("name: m"), str ("version: 1.0"), str ("tier: core"), str ("responsibility: r")],
          str ("/m"),
          fsL [.file (str (".DS_Store")) ⟨true, 1, 1, [], 0, 0, 0, str ("u"), str ("g")⟩,
               .file (str ("module.yaml")) ⟨false, 2, 1, [1], 0, 0, 0, str ("u"), str ("g")⟩]⟩]).2).isOk =
      true := by
  decide

/-- Claim C2 (amended): for every module root containing a symbolic link
that the enumerator can see — any symlinked directory, or a symlinked file
whose basename is not `.DS_Store` (a non-directory symlink named
`.DS_Store` is skipped with the housekeeping file, and is neither packaged
nor rejected) — enumeration fails with the `SymlinkRejected` error naming
the offending path, no manifest is returned (the result is the error
alone), the archive build fails identically so no archive is produced for
the module, and a run reaching this module stops with that error and
writes no index. -/
theorem c2_symlink_rejected_amended (modDir : Str) (cs : FsList)
    (hbad : hasBadSymlink cs = true) :
    ∃ rel msg, symlinkAt rel cs = true ∧
      (msg = symDirMsg (pathOf modDir rel) ∨ msg = symFileMsg (pathOf modDir rel)) ∧
      list_files modDir cs = .error msg ∧
      (∀ name ver, build_tarball modDir cs name ver = .error msg) ∧
      (∀ (tarBytes : Tarball → List Nat) (hexDigest : List Nat → Str) (args : BuildArgs)
        (nowTs : Str) (v1 : V1Registry) (yamlPath : Str) (yamlLines : List Str)
        (meta : ModuleMeta),
        read_module_yaml_scalars yamlPath yamlLines = .ok meta → args.only = [] →
        runBuild tarBytes hexDigest args nowTs v1 [⟨yamlPath, yamlLines, modDir, cs⟩] =
          ([], .error msg)) := by
  cases hw : walkTree modDir cs with
  | ok ps => exact absurd (walkTree_ok_noBad modDir cs ps hw) (by simp [hbad])
  | error e =>
    obtain ⟨rel, hs, hor⟩ := walkTree_error modDir cs e hw
    have hlf : list_files modDir cs = .error e := by
      rw [list_files, hw]
    have hbt : ∀ name ver, build_tarball modDir cs name ver = .error e := by
      intro name ver
      rw [build_tarball, hw]
    refine ⟨rel, e, hs, hor, hlf, hbt, ?_⟩
    intro tarBytes hexDigest args nowTs v1 yamlPath yamlLines meta hmeta honly
    have hbe : buildEntry tarBytes hexDigest args v1.modulesV1
        (if pstrip args.timestamp = [] then nowTs else pstrip args.timestamp)
        meta modDir cs = .error e := by
      rw [buildEntry, hbt meta.name meta.version]
    rw [runBuild]
    have hsort : List.insertionSort inputLe
        [(⟨yamlPath, yamlLines, modDir, cs⟩ : ModuleInput)] =
        [⟨yamlPath, yamlLines, modDir, cs⟩] := rfl
    rw [hsort, processAll, hmeta]
    rw [honly]
    simp only [List.map_nil, List.filter_nil, ne_eq, not_true_eq_false, false_and, if_false,
      ite_false]
    rw [hbe]

/-- Witness for C2 (amended) at a concrete tree containing a symlinked
file inside a subdirectory. -/
theorem c2_symlink_rejected_amended_witness :
    hasBadSymlink (fsL [.dir (str ("d")) false
        (fsL [.file (str ("link")) ⟨true, 3, 1, [], 0, 0, 0, str ("u"), str ("g")⟩])]) = true ∧
    ∃ rel msg, symlinkAt rel (fsL [.dir (str ("d")) false
        (fsL [.file (str ("link")) ⟨true, 3, 1, [], 0, 0, 0, str ("u"), str ("g")⟩])]) = true ∧
      (msg = symDirMsg (pathOf (str ("/m")) rel) ∨ msg = symFileMsg (pathOf (str ("/m")) rel)) ∧
      list_files (str ("/m")) (fsL [.dir (str ("d")) false
        (fsL [.file (str ("link")) ⟨true, 3, 1, [], 0, 0, 0, str ("u"), str ("g")⟩])]) = .error msg :=
  ⟨by decide,
   by
    obtain ⟨rel, msg, hs, hor, hlf, _, _⟩ := c2_symlink_rejected_amended (str ("/m"))
      (fsL [.dir (str ("d")) false
        (fsL [.file (str ("link")) ⟨true, 3, 1, [], 0, 0, 0, str ("u"), str ("g")⟩])]) (by decide)
    exact ⟨rel, msg, hs, hor, hlf⟩⟩

/-! Lemmas about the archive builder -/

theorem regFiles_fst_ne_nil :
    ∀ cs pref p, p ∈ regFilesPairs pref cs → p.1 ≠ [] := by
  intro cs
  induction cs using fsInd with
  | hnil => intro pref p hp; simp [regFilesPairs] at hp
  | hfile n a rest ih =>
    intro pref p hp
    rw [regFilesPairs] at hp
    rcases List.mem_append.mp hp with h1 | h2
    · by_cases hc : n ≠ str (".DS_Store") ∧ a.isSymlink = false
      · rw [if_pos hc] at h1
        have : p = (pref ++ [n], a) := by simpa using h1
        rw [this]
        simp
      · rw [if_neg hc] at h1
        simp at h1
    · exact ih pref p h2
  | hdir n s ch rest ihch ih =>
    intro pref p hp
    rw [regFilesPairs] at hp
    rcases List.mem_append.mp hp with h1 | h2
    · exact ihch (pref ++ [n]) p h1
    · exact ih pref p h2

theorem addEntries_ok (d nm : Str) :
    ∀ ps inodes es, addEntries d nm inodes ps = .ok es →
      es = ps.map (fun p => mkTarEntry nm p.1 p.2) := by
  intro ps
  induction ps with
  | nil =>
    intro inodes es h
    rw [addEntries] at h
    cases h; rfl
  | cons p rest ih =>
    intro inodes es h
    obtain ⟨rel, a⟩ := p
    rw [addEntries] at h
    by_cases hsym : a.isSymlink = true
    · rw [if_pos hsym] at h
      exact absurd h (by simp)
    · rw [if_neg hsym] at h
      by_cases hh : hardHit inodes a (nm :: rel) = true
      · rw [if_pos hh] at h
        exact absurd h (by simp)
      · rw [if_neg hh] at h
        cases hr : addEntries d nm
            (if a.ino ≠ 0 then (a.ino, nm :: rel) :: inodes else inodes) rest with
        | error e => rw [hr] at h; exact absurd h (by simp)
        | ok es2 =>
          rw [hr] at h
          have : es = mkTarEntry nm rel a :: es2 := by cases h; rfl
          rw [this, ih _ es2 hr]
          rfl

theorem dedup_const {α : Type} [DecidableEq α] (a : α) :
    ∀ l : List α, l ≠ [] → (∀ x ∈ l, x = a) → l.dedup = [a] := by
  intro l
  induction l with
  | nil => intro h _; exact absurd rfl h
  | cons x xs ih =>
    intro _ hall
    have hx : x = a := hall x (by simp)
    by_cases hxs : xs = []
    · subst hxs
      simp [hx]
    · have hmem : x ∈ xs := by
        cases xs with
        | nil => exact absurd rfl hxs
        | cons y ys =>
          have hy : y = a := hall y (by simp)
          rw [hx, hy]
          exact List.mem_cons_self _ _
      rw [List.dedup_cons_of_mem hmem]
      exact ih hxs (fun z hz => hall z (List.mem_cons_of_mem _ hz))

/-! Claim C4 -/

/-- Claim C4: every entry of a successfully built archive lies strictly
under the single top-level directory named exactly the module name (its
archive path is `name :: rel` with `rel` nonempty), and when the archive
has any entry at all, the set of top-level components is exactly the
module name — so unpacking yields exactly one top-level entry. -/
theorem c4_single_root (modDir : Str) (cs : FsList) (name ver : Str) (tb : Tarball)
    (h : build_tarball modDir cs name ver = .ok tb) :
    (∀ e ∈ tb.entries, ∃ rel, e.arcname = name :: rel ∧ rel ≠ []) ∧
    (tb.entries ≠ [] → topLevels tb = [some name]) := by
  rw [build_tarball] at h
  cases hw : walkTree modDir cs with
  | error e => rw [hw] at h; exact absurd h (by simp)
  | ok ps =>
    rw [hw] at h
    dsimp only at h
    cases ha : addEntries modDir name [] (List.insertionSort relLe ps) with
    | error e => rw [ha] at h; exact absurd h (by simp)
    | ok es =>
      rw [ha] at h
      have htb : tb = { gzipMtime := 0, entries := es } := by cases h; rfl
      have hes := addEntries_ok modDir name _ _ es ha
      have hmem : ∀ e ∈ tb.entries, ∃ rel, e.arcname = name :: rel ∧ rel ≠ [] := by
        intro e he
        rw [htb] at he
        rw [hes] at he
        obtain ⟨p, hp, hpe⟩ := List.mem_map.mp he
        refine ⟨p.1, by rw [← hpe]; rfl, ?_⟩
        have hp2 : p ∈ ps := (List.mem_insertionSort relLe).mp hp
        have hp3 : p ∈ regFilesPairs [] cs := (walkTree_ok_perm modDir cs ps hw).mem_iff.mp hp2
        exact regFiles_fst_ne_nil cs [] p hp3
      refine ⟨hmem, ?_⟩
      intro hne
      apply dedup_const
      · simpa using hne
      · intro x hx
        obtain ⟨e, he, hex⟩ := List.mem_map.mp hx
        obtain ⟨rel, harc, _⟩ := hmem e he
        rw [← hex, harc]
        rfl

/-- Witness for C4 at a concrete two-file module. -/
theorem c4_single_root_witness :
    (∀ e ∈ (Tarball.mk 0
        [mkTarEntry (str ("mod")) [str ("a")] ⟨false, 1, 1, [1], 0, 0, 0, str ("u"), str ("g")⟩,
         mkTarEntry (str ("mod")) [str ("d"), str ("b")] ⟨false, 2, 1, [2], 0, 0, 0, str ("u"), str ("g")⟩]).entries,
      ∃ rel, e.arcname = str ("mod") :: rel ∧ rel ≠ []) ∧
    topLevels (Tarball.mk 0
        [mkTarEntry (str ("mod")) [str ("a")] ⟨false, 1, 1, [1], 0, 0, 0, str ("u"), str ("g")⟩,
         mkTarEntry (str ("mod")) [str ("d"), str ("b")] ⟨false, 2, 1, [2], 0, 0, 0, str ("u"), str ("g")⟩]) =
      [some (str ("mod"))] := by
  have h := c4_single_root (str ("/m"))
    (fsL [.file (str ("a")) ⟨false, 1, 1, [1], 0, 0, 0, str ("u"), str ("g")⟩,
          .dir (str ("d")) false (fsL [.file (str ("b")) ⟨false, 2, 1, [2], 0, 0, 0, str ("u"), str ("g")⟩])])
    (str ("mod")) (str ("1.0"))
    (Tarball.mk 0
      [mkTarEntry (str ("mod")) [str ("a")] ⟨false, 1, 1, [1], 0, 0, 0, str ("u"), str ("g")⟩,
       mkTarEntry (str ("mod")) [str ("d"), str ("b")] ⟨false, 2, 1, [2], 0, 0, 0, str ("u"), str ("g")⟩])
    (by decide)
  exact ⟨h.1, h.2 (by decide)⟩

theorem filesContent_eq_map (cs : FsList) :
    filesContent cs = (regFilesPairs [] cs).map pathContent := rfl

/-- A successful build is fully determined by the module's file paths and
contents: the archive is the gzip-at-epoch container holding the
normalized entries of the sorted `(path, content)` view. -/
theorem build_entries_canonical (d : Str) (cs : FsList) (name ver : Str) (b : Tarball)
    (h : build_tarball d cs name ver = .ok b)
    (hnd : ((filesContent cs).map (fun p => joinPosix p.1)).Nodup) :
    b = { gzipMtime := 0,
          entries := (List.insertionSort contentLe (filesContent cs)).map (mkEntryPC name) } := by
  rw [build_tarball] at h
  cases hw : walkTree d cs with
  | error e => rw [hw] at h; exact absurd h (by simp)
  | ok ps =>
    rw [hw] at h
    dsimp only at h
    cases ha : addEntries d name [] (List.insertionSort relLe ps) with
    | error e => rw [ha] at h; exact absurd h (by simp)
    | ok es =>
      rw [ha] at h
      have htb : b = { gzipMtime := 0, entries := es } := by cases h; rfl
      have hes := addEntries_ok d name _ _ es ha
      have hfac : es = ((List.insertionSort relLe ps).map pathContent).map (mkEntryPC name) := by
        rw [hes, List.map_map]
        rfl
      have hcomm : (List.insertionSort relLe ps).map pathContent =
          List.insertionSort contentLe (ps.map pathContent) :=
        List.map_insertionSort (r := relLe) (s := contentLe) pathContent ps
          (fun _ _ _ _ => Iff.rfl)
      have hperm : (ps.map pathContent).Perm (filesContent cs) := by
        rw [filesContent_eq_map]
        exact (walkTree_ok_perm d cs ps hw).map pathContent
      have hP1 : (List.insertionSort contentLe (ps.map pathContent)).Perm (filesContent cs) :=
        (List.perm_insertionSort contentLe (ps.map pathContent)).trans hperm
      have hnd1 : ((List.insertionSort contentLe (ps.map pathContent)).map
          (fun p => joinPosix p.1)).Nodup :=
        (hP1.map (fun p => joinPosix p.1)).nodup_iff.mpr hnd
      have heq : List.insertionSort contentLe (ps.map pathContent) =
          List.insertionSort contentLe (filesContent cs) :=
        sorted_keyed_eq (hP1.trans (List.perm_insertionSort contentLe (filesContent cs)).symm)
          (List.sorted_insertionSort contentLe (ps.map pathContent))
          (List.sorted_insertionSort contentLe (filesContent cs)) hnd1
      rw [htb, hfac, hcomm, heq]

/-! Claim C1 -/

/-- Counterexample to claim C3 as stated: a module root containing a hard
link (a regular file with link count 2 whose other name lies outside the
module) builds successfully — the inode cache only detects the second
occurrence of an inode within the same archive, so nothing is rejected and
the file is packaged as a regular entry; the run completes and produces an
index. -/
theorem c3_external_hardlink_counterexample :
    1 < (FileAttrs.mk false 7 2 [1] 0 0 0 (str ("u")) (str ("g"))).nlink ∧
    build_tarball (str ("/m"))
      (fsL [.file (str ("data")) ⟨false, 7, 2, [1], 0, 0, 0, str ("u"), str ("g")⟩])
      (str ("mod")) (str ("1")) =
      .ok { gzipMtime := 0,
            entries := [mkTarEntry (str ("mod")) [str ("data")]
              ⟨false, 7, 2, [1], 0, 0, 0, str ("u"), str ("g")⟩] } ∧
    ((runBuild (fun _ => []) (fun _ => str ("d"))
        ⟨str ("v1"), str ("official"), str ("2.2.0"), str ("R"), str ("H"), str ("MIT"), str (""), []⟩
        (str ("T0")) ⟨[], str ("cats")⟩
        [⟨str ("m/module.yaml"),
          [str ("name: mod"), str ("version: 1"), str ("tier: core"), str ("responsibility: r")],
          str ("/m"),
          fsL [.file (str ("data")) ⟨false, 7, 2, [1], 0, 0, 0, str ("u"), str ("g")⟩]⟩]).2).isOk =
      true := by
  decide

theorem addEntries_error_form (d nm : Str) :
    ∀ ps inodes e, addEntries d nm inodes ps = .error e →
      ∃ rel, e = hardlinkMsg (pathOf d rel) := by
  intro ps
  induction ps with
  | nil =>
    intro inodes e h
    rw [addEntries] at h
    exact absurd h (by simp)
  | cons p rest ih =>
    intro inodes e h
    obtain ⟨rel, a⟩ := p
    rw [addEntries] at h
    by_cases hsym : a.isSymlink = true
    · rw [if_pos hsym] at h
      exact ⟨rel, by cases h; rfl⟩
    · rw [if_neg hsym] at h
      by_cases hh : hardHit inodes a (nm :: rel) = true
      · rw [if_pos hh] at h
        exact ⟨rel, by cases h; rfl⟩
      · rw [if_neg hh] at h
        cases hr : addEntries d nm
            (if a.ino ≠ 0 then (a.ino, nm :: rel) :: inodes else inodes) rest with
        | error e2 =>
          rw [hr] at h
          have : e = e2 := by cases h; rfl
          exact this ▸ ih _ e2 hr
        | ok es2 =>
          rw [hr] at h
          exact absurd h (by simp)

theorem addEntries_mid_error (d nm : Str) (q : List Str × FileAttrs)
    (hq0 : q.2.ino ≠ 0) (hqn : 1 < q.2.nlink) :
    ∀ t1 t2 inodes, (∃ a0, List.lookup q.2.ino inodes = some a0 ∧ a0 ≠ nm :: q.1) →
      (∀ x ∈ t1, x.1 ≠ q.1) →
      ∃ e, addEntries d nm inodes (t1 ++ q :: t2) = .error e := by
  intro t1
  induction t1 with
  | nil =>
    intro t2 inodes hinv _
    obtain ⟨a0, hlk, hane⟩ := hinv
    obtain ⟨qr, qa⟩ := q
    by_cases hsym : qa.isSymlink = true
    · exact ⟨hardlinkMsg (pathOf d qr), by
        simp only [List.nil_append]
        rw [addEntries, if_pos hsym]⟩
    · have hhit : hardHit inodes qa (nm :: qr) = true := by
        rw [hardHit]
        rw [show List.lookup qa.ino inodes = some a0 from hlk]
        simp only [Bool.and_eq_true, decide_eq_true_eq]
        exact ⟨hqn, hane⟩
      exact ⟨hardlinkMsg (pathOf d qr), by
        simp only [List.nil_append]
        rw [addEntries, if_neg hsym, if_pos hhit]⟩
  | cons x t1x ih =>
    intro t2 inodes hinv hseg
    obtain ⟨xr, xa⟩ := x
    by_cases hsym : xa.isSymlink = true
    · exact ⟨hardlinkMsg (pathOf d xr), by
        simp only [List.cons_append]
        rw [addEntries, if_pos hsym]⟩
    · by_cases hh : hardHit inodes xa (nm :: xr) = true
      · exact ⟨hardlinkMsg (pathOf d xr), by
          simp only [List.cons_append]
          rw [addEntries, if_neg hsym, if_pos hh]⟩
      · have hinv2 : ∃ a0, List.lookup q.2.ino
            (if xa.ino ≠ 0 then (xa.ino, nm :: xr) :: inodes else inodes) = some a0 ∧
            a0 ≠ nm :: q.1 := by
          by_cases hx0 : xa.ino ≠ 0
          · rw [if_pos hx0]
            by_cases hxq : q.2.ino = xa.ino
            · refine ⟨nm :: xr, ?_, ?_⟩
              · simp [List.lookup, hxq]
              · intro hcon
                have hx : xr = q.1 := by
                  injection hcon
                exact hseg (xr, xa) (by simp) hx
            · obtain ⟨a0, hlk, hane⟩ := hinv
              refine ⟨a0, ?_, hane⟩
              have hbeq : (q.2.ino == xa.ino) = false := by
                simp [hxq]
              simp [List.lookup, hbeq]
              exact hlk
          · rw [if_neg hx0]
            exact hinv
        obtain ⟨e, he⟩ := ih t2 _ hinv2 (fun z hz => hseg z (by simp [hz]))
        exact ⟨e, by
          simp only [List.cons_append]
          rw [addEntries, if_neg hsym, if_neg hh, he]⟩

theorem addEntries_pair_error (d nm : Str) (x y : List Str × FileAttrs)
    (hxy : x.1 ≠ y.1) (hino : x.2.ino = y.2.ino) (hy0 : y.2.ino ≠ 0)
    (hyn : 1 < y.2.nlink) :
    ∀ s1 s2 s3 inodes, (∀ z ∈ s2, z.1 ≠ y.1) →
      ∃ e, addEntries d nm inodes (s1 ++ x :: s2 ++ y :: s3) = .error e := by
  intro s1
  induction s1 with
  | nil =>
    intro s2 s3 inodes hseg
    obtain ⟨xr, xa⟩ := x
    by_cases hsym : xa.isSymlink = true
    · exact ⟨hardlinkMsg (pathOf d xr), by
        simp only [List.nil_append, List.cons_append]
        rw [addEntries, if_pos hsym]⟩
    · by_cases hh : hardHit inodes xa (nm :: xr) = true
      · exact ⟨hardlinkMsg (pathOf d xr), by
          simp only [List.nil_append, List.cons_append]
          rw [addEntries, if_neg hsym, if_pos hh]⟩
      · have hx0 : xa.ino ≠ 0 := by
          have hxy0 : xa.ino = y.2.ino := hino
          rw [hxy0]
          exact hy0
        have hinv : ∃ a0, List.lookup y.2.ino
            (if xa.ino ≠ 0 then (xa.ino, nm :: xr) :: inodes else inodes) = some a0 ∧
            a0 ≠ nm :: y.1 := by
          rw [if_pos hx0]
          refine ⟨nm :: xr, ?_, ?_⟩
          · have hbeq : y.2.ino = xa.ino := hino.symm
            simp [List.lookup, hbeq]
          · intro hcon
            have hx : xr = y.1 := by
              injection hcon
            exact hxy hx
        obtain ⟨e, he⟩ := addEntries_mid_error d nm y hy0 hyn s2 s3 _ hinv hseg
        exact ⟨e, by
          simp only [List.nil_append, List.cons_append]
          rw [addEntries, if_neg hsym, if_neg hh, he]⟩
  | cons z s1z ih =>
    intro s2 s3 inodes hseg
    obtain ⟨zr, za⟩ := z
    by_cases hsym : za.isSymlink = true
    · exact ⟨hardlinkMsg (pathOf d zr), by
        simp only [List.cons_append]
        rw [addEntries, if_pos hsym]⟩
    · by_cases hh : hardHit inodes za (nm :: zr) = true
      · exact ⟨hardlinkMsg (pathOf d zr), by
          simp only [List.cons_append]
          rw [addEntries, if_neg hsym, if_pos hh]⟩
      · obtain ⟨e, he⟩ := ih s2 s3
          (if za.ino ≠ 0 then (za.ino, nm :: zr) :: inodes else inodes) hseg
        exact ⟨e, by
          simp only [List.cons_append]
          rw [addEntries, if_neg hsym, if_neg hh, he]⟩

theorem mem_mem_split {α : Type} {l : List α} {a b : α} (ha : a ∈ l) (hb : b ∈ l)
    (hne : a ≠ b) :
    ∃ s1 s2 s3, l = s1 ++ a :: s2 ++ b :: s3 ∨ l = s1 ++ b :: s2 ++ a :: s3 := by
  obtain ⟨u1, u2, rfl⟩ := List.append_of_mem ha
  rcases List.mem_append.mp hb with h1 | h2
  · obtain ⟨v1, v2, rfl⟩ := List.append_of_mem h1
    exact ⟨v1, v2, u2, Or.inr (by simp)⟩
  · rcases List.mem_cons.mp h2 with h3 | h4
    · exact absurd h3.symm hne
    · obtain ⟨v1, v2, rfl⟩ := List.append_of_mem h4
      exact ⟨u1, v1, v2, Or.inl (by simp)⟩

theorem pairwise_mid {α : Type} {R : α → α → Prop} {s1 s2 s3 : List α} {x y : α}
    (h : List.Pairwise R (s1 ++ x :: s2 ++ y :: s3)) : ∀ z ∈ s2, R z y := by
  have h3 := (List.pairwise_append.mp h).2.2
  exact fun z hz => h3 z (by simp [hz]) y (by simp)

/-- A run that reaches a module whose tarball build fails stops with that
error: nothing is built and no index is written. -/
theorem runBuild_single_build_error (tarBytes : Tarball → List Nat)
    (hexDigest : List Nat → Str) (args : BuildArgs) (nowTs : Str) (v1 : V1Registry)
    (yamlPath : Str) (yamlLines : List Str) (modDir : Str) (cs : FsList)
    (meta : ModuleMeta) (e : Str)
    (hmeta : read_module_yaml_scalars yamlPath yamlLines = .ok meta)
    (honly : args.only = [])
    (hbt : build_tarball modDir cs meta.name meta.version = .error e) :
    runBuild tarBytes hexDigest args nowTs v1 [⟨yamlPath, yamlLines, modDir, cs⟩] =
      ([], .error e) := by
  have hbe : buildEntry tarBytes hexDigest args v1.modulesV1
      (if pstrip args.timestamp = [] then nowTs else pstrip args.timestamp)
      meta modDir cs = .error e := by
    rw [buildEntry, hbt]
  rw [runBuild]
  have hsort : List.insertionSort inputLe
      [(⟨yamlPath, yamlLines, modDir, cs⟩ : ModuleInput)] =
      [⟨yamlPath, yamlLines, modDir, cs⟩] := rfl
  rw [hsort, processAll, hmeta]
  rw [honly]
  simp only [List.map_nil, List.filter_nil, ne_eq, not_true_eq_false, false_and, if_false,
    ite_false]
  rw [hbe]

/-- Claim C3 (amended): a hard link is rejected only by the archive
writer's inode cache, i.e. when the same (nonzero) inode appears under two
different relative paths within the same module.  For every module root
containing two such paths (both with link count above 1), the build fails
— with the `Refusing to package symlink/hardlink` error when enumeration
succeeds, or with the symlink-rejection error when enumeration fails first
— and a run reaching this module aborts without writing an index.  (A
single hard link whose other name lies outside the module root is *not*
rejected; see the counterexample.) -/
theorem c3_hardlink_rejected_amended (modDir : Str) (cs : FsList) (name ver : Str)
    (p q : List Str × FileAttrs)
    (hpmem : p ∈ regFilesPairs [] cs) (hqmem : q ∈ regFilesPairs [] cs)
    (hne : p.1 ≠ q.1) (hino : p.2.ino = q.2.ino) (hino0 : q.2.ino ≠ 0)
    (hnl1 : 1 < p.2.nlink) (hnl2 : 1 < q.2.nlink)
    (hnd : ((regFilesPairs [] cs).map Prod.fst).Nodup) :
    ∃ e, build_tarball modDir cs name ver = .error e ∧
      ((∃ rel, e = hardlinkMsg (pathOf modDir rel)) ∨
        (∃ rel, e = symDirMsg (pathOf modDir rel) ∨ e = symFileMsg (pathOf modDir rel))) ∧
      ∀ (tarBytes : Tarball → List Nat) (hexDigest : List Nat → Str) (args : BuildArgs)
        (nowTs : Str) (v1 : V1Registry) (yamlPath : Str) (yamlLines : List Str)
        (meta : ModuleMeta),
        read_module_yaml_scalars yamlPath yamlLines = .ok meta → args.only = [] →
        meta.name = name → meta.version = ver →
        runBuild tarBytes hexDigest args nowTs v1 [⟨yamlPath, yamlLines, modDir, cs⟩] =
          ([], .error e) := by
  cases hw : walkTree modDir cs with
  | error e =>
    obtain ⟨rel, _, hor⟩ := walkTree_error modDir cs e hw
    have hbt : ∀ n v, build_tarball modDir cs n v = .error e := by
      intro n v
      rw [build_tarball, hw]
    refine ⟨e, hbt name ver, Or.inr ⟨rel, hor⟩, ?_⟩
    intro tarBytes hexDigest args nowTs v1 yamlPath yamlLines meta hmeta honly _ _
    exact runBuild_single_build_error tarBytes hexDigest args nowTs v1 yamlPath yamlLines
      modDir cs meta e hmeta honly (hbt meta.name meta.version)
  | ok ps =>
    have hperm := walkTree_ok_perm modDir cs ps hw
    have hp1 : p ∈ List.insertionSort relLe ps :=
      (List.mem_insertionSort relLe).mpr (hperm.mem_iff.mpr hpmem)
    have hq1 : q ∈ List.insertionSort relLe ps :=
      (List.mem_insertionSort relLe).mpr (hperm.mem_iff.mpr hqmem)
    have hpq : p ≠ q := fun hcon => hne (by rw [hcon])
    have hndS : ((List.insertionSort relLe ps).map Prod.fst).Nodup :=
      (((List.perm_insertionSort relLe ps).trans hperm).map Prod.fst).nodup_iff.mpr hnd
    have hpw : List.Pairwise (fun a b : List Str × FileAttrs => a.1 ≠ b.1)
        (List.insertionSort relLe ps) := List.pairwise_map.mp hndS
    have hmain : ∃ e, addEntries modDir name [] (List.insertionSort relLe ps) = .error e := by
      obtain ⟨s1, s2, s3, hsplit⟩ := mem_mem_split hp1 hq1 hpq
      rcases hsplit with h1 | h2
      · rw [h1] at hpw
        have hseg : ∀ z ∈ s2, z.1 ≠ q.1 := pairwise_mid hpw
        obtain ⟨e, he⟩ := addEntries_pair_error modDir name p q hne hino hino0 hnl2
          s1 s2 s3 [] hseg
        exact ⟨e, by rw [h1]; exact he⟩
      · rw [h2] at hpw
        have hseg : ∀ z ∈ s2, z.1 ≠ p.1 := pairwise_mid hpw
        have hp0 : p.2.ino ≠ 0 := by
          rw [hino]
          exact hino0
        obtain ⟨e, he⟩ := addEntries_pair_error modDir name q p
          (fun hcon => hne hcon.symm) hino.symm hp0 hnl1 s1 s2 s3 [] hseg
        exact ⟨e, by rw [h2]; exact he⟩
    obtain ⟨e, hadd⟩ := hmain
    have hbt : ∀ v, build_tarball modDir cs name v = .error e := by
      intro v
      rw [build_tarball, hw]
      dsimp only
      rw [hadd]
    obtain ⟨rel, hrel⟩ := addEntries_error_form modDir name _ _ e hadd
    refine ⟨e, hbt ver, Or.inl ⟨rel, hrel⟩, ?_⟩
    intro tarBytes hexDigest args nowTs v1 yamlPath yamlLines meta hmeta honly hmn hmv
    refine runBuild_single_build_error tarBytes hexDigest args nowTs v1 yamlPath yamlLines
      modDir cs meta e hmeta honly ?_
    rw [hmn, hmv]
    exact hbt meta.version

/-- Witness for C3 (amended) at a module with two names for inode 7. -/
theorem c3_hardlink_rejected_amended_witness :
    (∃ e, build_tarball (str ("/m"))
      (fsL [.file (str ("a")) ⟨false, 7, 2, [1], 0, 0, 0, str ("u"), str ("g")⟩,
            .file (str ("b")) ⟨false, 7, 2, [1], 0, 0, 0, str ("u"), str ("g")⟩])
      (str ("mod")) (str ("1")) = .error e) ∧
    ([str ("a")], (⟨false, 7, 2, [1], 0, 0, 0, str ("u"), str ("g")⟩ : FileAttrs)) ∈
      regFilesPairs [] (fsL [.file (str ("a")) ⟨false, 7, 2, [1], 0, 0, 0, str ("u"), str ("g")⟩,
            .file (str ("b")) ⟨false, 7, 2, [1], 0, 0, 0, str ("u"), str ("g")⟩]) := by
  obtain ⟨e, hb, _, _⟩ := c3_hardlink_rejected_amended (str ("/m"))
    (fsL [.file (str ("a")) ⟨false, 7, 2, [1], 0, 0, 0, str ("u"), str ("g")⟩,
          .file (str ("b")) ⟨false, 7, 2, [1], 0, 0, 0, str ("u"), str ("g")⟩])
    (str ("mod")) (str ("1"))
    ([str ("a")], ⟨false, 7, 2, [1], 0, 0, 0, str ("u"), str ("g")⟩)
    ([str ("b")], ⟨false, 7, 2, [1], 0, 0, 0, str ("u"), str ("g")⟩)
    (by decide) (by decide) (by decide) (by decide) (by decide) (by decide) (by decide)
    (by decide)
  exact ⟨⟨e, hb⟩, by decide⟩

/-! Claim C6 -/

theorem foldl_append_eq_flatten (l : List (List Nat)) :
    ∀ acc, l.foldl (fun acc c => acc ++ c) acc = acc ++ l.flatten := by
  induction l with
  | nil => intro acc; simp
  | cons c rest ih =>
    intro acc
    rw [List.foldl_cons, ih, List.flatten_cons, List.append_assoc]

theorem readChunks_flatten (n : Nat) (hn : 1 ≤ n) :
    ∀ k bs, bs.length ≤ k → (readChunks n bs).flatten = bs := by
  intro k
  induction k with
  | zero =>
    intro bs h
    have hb : bs = [] := List.length_eq_zero.mp (Nat.le_zero.mp h)
    rw [hb]
    simp [readChunks]
  | succ k ih =>
    intro bs h
    cases bs with
    | nil => simp [readChunks]
    | cons b bs2 =>
      rw [readChunks, List.flatten_cons]
      have hlen : (List.drop (n - 1) bs2).length ≤ k := by
        simp only [List.length_cons] at h
        simp only [List.length_drop]
        omega
      rw [ih _ hlen]
      cases n with
      | zero => omega
      | succ m =>
        rw [List.take_succ_cons]
        simp only [Nat.succ_sub_one, List.cons_append, List.take_append_drop]

theorem sha256Absorbed_eq (bs : List Nat) : sha256Absorbed bs = bs := by
  rw [sha256Absorbed, foldl_append_eq_flatten, List.nil_append]
  exact readChunks_flatten (1024 * 1024) (by norm_num) bs.length bs le_rfl

/-- Claim C6: the registry entry's checksum field is the string `sha256:`
followed by the hex digest of the archive's bytes, `size_bytes` is the
archive's byte length, and the digest is computed by streaming the bytes
in fixed 1 MiB chunks whose concatenation is exactly the whole byte
sequence — so the streamed digest equals the digest of the whole file and
identical bytes always yield identical digests. -/
theorem c6_checksum_streaming (tarBytes : Tarball → List Nat) (hexDigest : List Nat → Str)
    (args : BuildArgs) (v1mods : List (Str × V1Info)) (ts : Str) (meta : ModuleMeta)
    (dirPath : Str) (tree : FsList) (e : RegEntry) (a : Str × Tarball)
    (h : buildEntry tarBytes hexDigest args v1mods ts meta dirPath tree = .ok (e, a)) :
    e.distribution.checksum = str ("sha256:") ++ hexDigest (tarBytes a.2) ∧
    e.distribution.size_bytes = (tarBytes a.2).length ∧
    (∀ bs, sha256Absorbed bs = bs) ∧
    (∀ bs, sha256_file hexDigest bs = hexDigest bs) := by
  rw [buildEntry] at h
  cases hb : build_tarball dirPath tree meta.name meta.version with
  | error e2 => rw [hb] at h; exact absurd h (by simp)
  | ok tb =>
    rw [hb] at h
    dsimp only at h
    cases hlf : list_files dirPath tree with
    | error e2 => rw [hlf] at h; exact absurd h (by simp)
    | ok files =>
      rw [hlf] at h
      dsimp only at h
      injection h with h4
      rw [Prod.mk.injEq] at h4
      obtain ⟨h5, h6⟩ := h4
      subst h5
      subst h6
      refine ⟨?_, rfl, sha256Absorbed_eq, ?_⟩
      · show str ("sha256:") ++ sha256_file hexDigest (tarBytes tb) =
          str ("sha256:") ++ hexDigest (tarBytes tb)
        rw [sha256_file, sha256Absorbed_eq]
      · intro bs
        rw [sha256_file, sha256Absorbed_eq]

/-- Witness for C6 at a concrete single-file module, with the serializer
and digest instantiated to concrete functions. -/
theorem c6_checksum_streaming_witness :
    ((buildEntry (fun _ => [9, 9, 9]) (fun _ => str ("h"))
        ⟨str ("v1"), str ("official"), str ("2.2.0"), str ("R"), str ("H"), str ("MIT"), str (""), []⟩
        [] (str ("T")) ⟨str ("m"), str ("1"), str ("core"), str ("r")⟩ (str ("/m"))
        (fsL [.file (str ("f")) ⟨false, 1, 1, [9, 9, 9], 0, 0, 0, str ("u"), str ("g")⟩])).map
      (fun pr => pr.1.distribution.checksum)) = .ok (str ("sha256:h")) ∧
    sha256Absorbed [9, 9, 9] = [9, 9, 9] :=
  ⟨by decide,
   (c6_checksum_streaming (fun _ => [9, 9, 9]) (fun _ => str ("h"))
      ⟨str ("v1"), str ("official"), str ("2.2.0"), str ("R"), str ("H"), str ("MIT"), str (""), []⟩
      [] (str ("T")) ⟨str ("m"), str ("1"), str ("core"), str ("r")⟩ (str ("/m"))
      (fsL [.file (str ("f")) ⟨false, 1, 1, [9, 9, 9], 0, 0, 0, str ("u"), str ("g")⟩])
      _ _ rfl).2.2.1 [9, 9, 9]⟩

/-! Claim C7 -/

/-- Counterexample to claim C7 as stated: when a legacy entry exists for
the module but its `description` field is absent, the produced description
does not come from the legacy entry — it falls back to the module's
`responsibility`.  Two modules with the same present legacy entry but
different responsibilities get different descriptions (while the author
does come from the legacy entry). -/
theorem c7_legacy_merge_counterexample :
    lookupA (str ("m")) [(str ("m"), (⟨none, some (str ("alice")), none⟩ : V1Info))] =
      some ⟨none, some (str ("alice")), none⟩ ∧
    ((buildEntry (fun _ => []) (fun _ => str ("h"))
        ⟨str ("v1"), str ("official"), str ("2.2.0"), str ("R"), str ("H"), str ("MIT"), str (""), []⟩
        [(str ("m"), ⟨none, some (str ("alice")), none⟩)] (str ("T"))
        ⟨str ("m"), str ("1"), str ("core"), str ("r1")⟩ (str ("/m")) .nil).map
      (fun pr => pr.1.metadata.description)) = .ok (str ("r1")) ∧
    ((buildEntry (fun _ => []) (fun _ => str ("h"))
        ⟨str ("v1"), str ("official"), str ("2.2.0"), str ("R"), str ("H"), str ("MIT"), str (""), []⟩
        [(str ("m"), ⟨none, some (str ("alice")), none⟩)] (str ("T"))
        ⟨str ("m"), str ("1"), str ("core"), str ("r2")⟩ (str ("/m")) .nil).map
      (fun pr => pr.1.metadata.description)) = .ok (str ("r2")) ∧
    ((buildEntry (fun _ => []) (fun _ => str ("h"))
        ⟨str ("v1"), str ("official"), str ("2.2.0"), str ("R"), str ("H"), str ("MIT"), str (""), []⟩
        [(str ("m"), ⟨none, some (str ("alice")), none⟩)] (str ("T"))
        ⟨str ("m"), str ("1"), str ("core"), str ("r1")⟩ (str ("/m")) .nil).map
      (fun pr => pr.1.metadata.author)) = .ok (str ("alice")) ∧
    str ("r1") ≠ str ("r2") := by
  decide

/-- Claim C7 (amended): the merge with the legacy index is per-field and
treats empty strings like missing values (Python truthiness).
`description` is the legacy description when present and nonempty, else
the module's `responsibility`; `description_zh` always duplicates
`description`; `author` is the legacy author when present and nonempty,
else `"unknown"`; `keywords` is the legacy tags when present, else `[]`.
When no legacy entry exists at all, the three fallbacks apply. -/
theorem c7_metadata_merge_amended (tarBytes : Tarball → List Nat)
    (hexDigest : List Nat → Str) (args : BuildArgs) (v1mods : List (Str × V1Info))
    (ts : Str) (meta : ModuleMeta) (dirPath : Str) (tree : FsList)
    (e : RegEntry) (a : Str × Tarball)
    (h : buildEntry tarBytes hexDigest args v1mods ts meta dirPath tree = .ok (e, a)) :
    e.metadata.description =
      pyOr ((lookupA meta.name v1mods).getD ⟨none, none, none⟩).description
        meta.responsibility ∧
    e.metadata.description_zh = e.metadata.description ∧
    e.metadata.author =
      pyOr ((lookupA meta.name v1mods).getD ⟨none, none, none⟩).author (str ("unknown")) ∧
    e.metadata.keywords =
      pyOrTags ((lookupA meta.name v1mods).getD ⟨none, none, none⟩).tags ∧
    (lookupA meta.name v1mods = none →
      e.metadata.description = meta.responsibility ∧
      e.metadata.author = str ("unknown") ∧ e.metadata.keywords = []) ∧
    (∀ info, lookupA meta.name v1mods = some info →
      (∀ t, info.description = some t → t ≠ [] → e.metadata.description = t) ∧
      ((info.description = none ∨ info.description = some []) →
        e.metadata.description = meta.responsibility) ∧
      (∀ t, info.author = some t → t ≠ [] → e.metadata.author = t) ∧
      ((info.author = none ∨ info.author = some []) →
        e.metadata.author = str ("unknown")) ∧
      (∀ t, info.tags = some t → e.metadata.keywords = t) ∧
      (info.tags = none → e.metadata.keywords = [])) := by
  rw [buildEntry] at h
  cases hb : build_tarball dirPath tree meta.name meta.version with
  | error e2 => rw [hb] at h; exact absurd h (by simp)
  | ok tb =>
    rw [hb] at h
    dsimp only at h
    cases hlf : list_files dirPath tree with
    | error e2 => rw [hlf] at h; exact absurd h (by simp)
    | ok files =>
      rw [hlf] at h
      dsimp only at h
      injection h with h4
      rw [Prod.mk.injEq] at h4
      obtain ⟨h5, h6⟩ := h4
      subst h5
      refine ⟨rfl, rfl, rfl, rfl, ?_, ?_⟩
      · intro hnone
        constructor
        · show pyOr ((lookupA meta.name v1mods).getD ⟨none, none, none⟩).description
            meta.responsibility = meta.responsibility
          rw [hnone]
          rfl
        constructor
        · show pyOr ((lookupA meta.name v1mods).getD ⟨none, none, none⟩).author
            (str ("unknown")) = str ("unknown")
          rw [hnone]
          rfl
        · show pyOrTags ((lookupA meta.name v1mods).getD ⟨none, none, none⟩).tags = []
          rw [hnone]
          rfl
      · intro info hsome
        refine ⟨?_, ?_, ?_, ?_, ?_, ?_⟩
        · intro t ht htne
          show pyOr ((lookupA meta.name v1mods).getD ⟨none, none, none⟩).description
            meta.responsibility = t
          rw [hsome]
          show pyOr info.description meta.responsibility = t
          rw [ht, pyOr, if_neg htne]
        · intro hcase
          show pyOr ((lookupA meta.name v1mods).getD ⟨none, none, none⟩).description
            meta.responsibility = meta.responsibility
          rw [hsome]
          show pyOr info.description meta.responsibility = meta.responsibility
          rcases hcase with hc | hc
          · rw [hc]; rfl
          · rw [hc, pyOr, if_pos rfl]
        · intro t ht htne
          show pyOr ((lookupA meta.name v1mods).getD ⟨none, none, none⟩).author
            (str ("unknown")) = t
          rw [hsome]
          show pyOr info.author (str ("unknown")) = t
          rw [ht, pyOr, if_neg htne]
        · intro hcase
          show pyOr ((lookupA meta.name v1mods).getD ⟨none, none, none⟩).author
            (str ("unknown")) = str ("unknown")
          rw [hsome]
          show pyOr info.author (str ("unknown")) = str ("unknown")
          rcases hcase with hc | hc
          · rw [hc]; rfl
          · rw [hc, pyOr, if_pos rfl]
        · intro t ht
          show pyOrTags ((lookupA meta.name v1mods).getD ⟨none, none, none⟩).tags = t
          rw [hsome]
          show pyOrTags info.tags = t
          rw [ht]
          rfl
        · intro hnone
          show pyOrTags ((lookupA meta.name v1mods).getD ⟨none, none, none⟩).tags = []
          rw [hsome]
          show pyOrTags info.tags = []
          rw [hnone]
          rfl

/-- Witness for C7 (amended) at a legacy entry present with author only. -/
theorem c7_metadata_merge_amended_witness :
    ((buildEntry (fun _ => []) (fun _ => str ("h"))
        ⟨str ("v1"), str ("official"), str ("2.2.0"), str ("R"), str ("H"), str ("MIT"), str (""), []⟩
        [(str ("m"), ⟨some [], some (str ("alice")), none⟩)] (str ("T"))
        ⟨str ("m"), str ("1"), str ("core"), str ("resp")⟩ (str ("/m")) .nil).map
      (fun pr => (pr.1.metadata.description, pr.1.metadata.author,
        pr.1.metadata.keywords))) = .ok (str ("resp"), str ("alice"), []) := by
  have h := c7_metadata_merge_amended (fun _ => []) (fun _ => str ("h"))
    ⟨str ("v1"), str ("official"), str ("2.2.0"), str ("R"), str ("H"), str ("MIT"), str (""), []⟩
    [(str ("m"), ⟨some [], some (str ("alice")), none⟩)] (str ("T"))
    ⟨str ("m"), str ("1"), str ("core"), str ("resp")⟩ (str ("/m")) .nil _ _ rfl
  have h2 := h.2.2.2.2.2 ⟨some [], some (str ("alice")), none⟩ (by decide)
  have hd := h2.2.1 (Or.inr rfl)
  have ha := h2.2.2.1 (str ("alice")) rfl (by decide)
  have hk := h2.2.2.2.2.2 rfl
  rw [show (buildEntry (fun _ => ([] : List Nat)) (fun _ => str ("h"))
      ⟨str ("v1"), str ("official"), str ("2.2.0"), str ("R"), str ("H"), str ("MIT"), str (""), []⟩
      [(str ("m"), ⟨some [], some (str ("alice")), none⟩)] (str ("T"))
      ⟨str ("m"), str ("1"), str ("core"), str ("resp")⟩ (str ("/m")) FsList.nil) = .ok _ from rfl]
  rw [Except.map]
  rw [hd, ha, hk]

/-! Claim C10 -/

/-- Counterexample to C10 as stated: sibling directories `mod` and `mod-v2`
both declare name `m`.  Because `-` (0x2D) sorts below `/` (0x2F),
`mods/mod/module.yaml` is the lexicographically later full path string,
so the claim predicts the entry built from it (responsibility `r1`)
survives; but the program sorts descriptor paths by their parts lists
(`sorted` over `Path` objects), which puts `mods/mod` first, and the
surviving index entry is the one from `mods/mod-v2/module.yaml`
(description `r2`). -/
theorem c10_sibling_prefix_counterexample :
    strLe (str ("mods/mod-v2/module.yaml")) (str ("mods/mod/module.yaml")) = true ∧
    str ("mods/mod-v2/module.yaml") ≠ str ("mods/mod/module.yaml") ∧
    pathLe (str ("mods/mod/module.yaml")) (str ("mods/mod-v2/module.yaml")) = true ∧
    ∃ reg,
      (runBuild (fun _ => []) (fun _ => str ("h"))
        ⟨str ("v1"), str ("official"), str ("2.2.0"), str ("R"), str ("H"), str ("MIT"), str (""), []⟩
        (str ("T")) ⟨[], str ("cats")⟩
        [⟨str ("mods/mod/module.yaml"),
          [str ("name: m"), str ("version: 1"), str ("tier: core"), str ("responsibility: r1")],
          str ("/a"), fsL [.file (str ("f")) ⟨false, 1, 1, [1], 0, 0, 0, str ("u"), str ("g")⟩]⟩,
         ⟨str ("mods/mod-v2/module.yaml"),
          [str ("name: m"), str ("version: 2"), str ("tier: core"), str ("responsibility: r2")],
          str ("/b"), fsL [.file (str ("g")) ⟨false, 2, 1, [2], 0, 0, 0, str ("u"), str ("g")⟩]⟩]).2 =
      .ok reg ∧
      reg.modulesIdx.map (fun pr => pr.2.metadata.description) = [str ("r2")] ∧
      str ("r2") ≠ str ("r1") := by
  exact ⟨by decide, by decide, by decide, _, rfl, rfl, by decide⟩

/-- Claim C10 (amended): when two module directories declare the same
`name`, both tarballs are built (the archives list has both), but the
`entries` dict assignment overwrites, keeping only the entry assembled
from the descriptor path that sorts later in the program's path order —
`sorted` over `Path` objects compares the paths' parts lists, which
disagrees with full-string order exactly when one sibling directory name
is a proper prefix of the other followed by a character below `/` (such
as `-` or `.`); `featured` and `stats.total_modules` count that name
once, so the number of archives built (2) exceeds `total_modules` (1). -/
theorem c10_duplicate_name_overwrite (tarBytes : Tarball → List Nat)
    (hexDigest : List Nat → Str) (args : BuildArgs) (nowTs : Str) (v1 : V1Registry)
    (m1 m2 : ModuleInput) (meta1 meta2 : ModuleMeta)
    (e1 e2 : RegEntry) (a1 a2 : Str × Tarball)
    (hr1 : read_module_yaml_scalars m1.yamlPath m1.yamlLines = .ok meta1)
    (hr2 : read_module_yaml_scalars m2.yamlPath m2.yamlLines = .ok meta2)
    (hname : meta1.name = meta2.name)
    (horder : pathLe m1.yamlPath m2.yamlPath = true)
    (honly : args.only = [])
    (hb1 : buildEntry tarBytes hexDigest args v1.modulesV1
      (if pstrip args.timestamp = [] then nowTs else pstrip args.timestamp)
      meta1 m1.dirPath m1.tree = .ok (e1, a1))
    (hb2 : buildEntry tarBytes hexDigest args v1.modulesV1
      (if pstrip args.timestamp = [] then nowTs else pstrip args.timestamp)
      meta2 m2.dirPath m2.tree = .ok (e2, a2)) :
    ∃ reg, runBuild tarBytes hexDigest args nowTs v1 [m1, m2] = ([a1, a2], .ok reg) ∧
      reg.modulesIdx = [(meta2.name, e2)] ∧ reg.featured = [meta2.name] ∧
      reg.total_modules = 1 ∧ reg.total_downloads = 0 ∧
      reg.total_modules < ([a1, a2]).length := by
  have hsort : List.insertionSort inputLe [m1, m2] = [m1, m2] := by
    simp [List.insertionSort, List.orderedInsert, inputLe, horder]
  rw [runBuild, hsort]
  rw [processAll, hr1]
  rw [honly]
  simp only [List.map_nil, List.filter_nil, ne_eq, not_true_eq_false, false_and, if_false,
    ite_false]
  rw [hb1]
  dsimp only
  rw [processAll, hr2]
  simp only [List.map_nil, List.filter_nil, ne_eq, not_true_eq_false, false_and, if_false,
    ite_false]
  rw [hb2]
  dsimp only
  rw [processAll]
  rw [show dictInsert meta2.name e2 (dictInsert meta1.name e1 []) = [(meta2.name, e2)] by
    rw [dictInsert, dictInsert, if_pos hname]]
  exact ⟨_, rfl, rfl, rfl, rfl, rfl, by simp⟩

/-- Witness for C10: two concrete one-file module directories both named
`m`; the run builds two archives but indexes one module. -/
theorem c10_duplicate_name_overwrite_witness :
    ((runBuild (fun _ => []) (fun _ => str ("h"))
        ⟨str ("v1"), str ("official"), str ("2.2.0"), str ("R"), str ("H"), str ("MIT"), str (""), []⟩
        (str ("T")) ⟨[], str ("cats")⟩
        [⟨str ("a/module.yaml"),
          [str ("name: m"), str ("version: 1"), str ("tier: core"), str ("responsibility: r1")],
          str ("/a"), fsL [.file (str ("f")) ⟨false, 1, 1, [1], 0, 0, 0, str ("u"), str ("g")⟩]⟩,
         ⟨str ("b/module.yaml"),
          [str ("name: m"), str ("version: 2"), str ("tier: core"), str ("responsibility: r2")],
          str ("/b"), fsL [.file (str ("g")) ⟨false, 2, 1, [2], 0, 0, 0, str ("u"), str ("g")⟩]⟩]).1).length
      = 2 ∧
    ∃ reg, (runBuild (fun _ => []) (fun _ => str ("h"))
        ⟨str ("v1"), str ("official"), str ("2.2.0"), str ("R"), str ("H"), str ("MIT"), str (""), []⟩
        (str ("T")) ⟨[], str ("cats")⟩
        [⟨str ("a/module.yaml"),
          [str ("name: m"), str ("version: 1"), str ("tier: core"), str ("responsibility: r1")],
          str ("/a"), fsL [.file (str ("f")) ⟨false, 1, 1, [1], 0, 0, 0, str ("u"), str ("g")⟩]⟩,
         ⟨str ("b/module.yaml"),
          [str ("name: m"), str ("version: 2"), str ("tier: core"), str ("responsibility: r2")],
          str ("/b"), fsL [.file (str ("g")) ⟨false, 2, 1, [2], 0, 0, 0, str ("u"), str ("g")⟩]⟩]).2 =
        .ok reg ∧ reg.total_modules = 1 ∧ reg.featured = [str ("m")] := by
  obtain ⟨reg, hrun, hmod, hfeat, htot, hdl, hlt⟩ := c10_duplicate_name_overwrite
    (fun _ => []) (fun _ => str ("h"))
    ⟨str ("v1"), str ("official"), str ("2.2.0"), str ("R"), str ("H"), str ("MIT"), str (""), []⟩
    (str ("T")) ⟨[], str ("cats")⟩
    ⟨str ("a/module.yaml"),
      [str ("name: m"), str ("version: 1"), str ("tier: core"), str ("responsibility: r1")],
      str ("/a"), fsL [.file (str ("f")) ⟨false, 1, 1, [1], 0, 0, 0, str ("u"), str ("g")⟩]⟩
    ⟨str ("b/module.yaml"),
      [str ("name: m"), str ("version: 2"), str ("tier: core"), str ("responsibility: r2")],
      str ("/b"), fsL [.file (str ("g")) ⟨false, 2, 1, [2], 0, 0, 0, str ("u"), str ("g")⟩]⟩
    ⟨str ("m"), str ("1"), str ("core"), str ("r1")⟩ ⟨str ("m"), str ("2"), str ("core"), str ("r2")⟩
    _ _ _ _ (by decide) (by decide) (by decide) (by decide) rfl rfl rfl
  refine ⟨?_, reg, ?_, htot, ?_⟩
  · rw [hrun]
    rfl
  · rw [hrun]
  · rw [hfeat]
